import Mathlib

set_option linter.unusedVariables false

attribute [local semireducible] Rat.add Rat.mul Rat.sub Rat.inv

/-!
Verification of the Automatic-Data-Analysis-Performer core pipeline
(src/etl.py, src/stats.py, src/visuals.py) against its specification.

Tables are modelled column-major, as pandas DataFrames are: each column has a
name, a dtype and a list of cell values; `Val.na` stands for NaN/NaT/None.
Rational numbers stand in for floats; quantities that are irrational in the
source (standard deviation, Pearson correlation, skewness) are represented by
rational encodings (their squares, or signed squares) that determine them and
preserve every comparison the source performs.
-/

/-- One cell value of a DataFrame.  `na` is NaN / NaT / None. -/
inductive Val : Type
  | num (q : ℚ)
  | str (s : String)
  | time (t : ℤ)
  | na
deriving DecidableEq

/-- The pandas dtype of a column, as the source distinguishes them
    (`is_numeric_dtype`, `object`, `is_datetime64_any_dtype`). -/
inductive Dtype : Type
  | numeric
  | object
  | datetime
deriving DecidableEq

/-- One named column of a DataFrame. -/
structure Col : Type where
  name : String
  dtype : Dtype
  vals : List Val
deriving DecidableEq

instance : Inhabited Col := ⟨⟨"", Dtype.object, []⟩⟩

/-- A DataFrame: an ordered list of columns. -/
structure Table : Type where
  cols : List Col
deriving DecidableEq

instance : Inhabited Table := ⟨⟨[]⟩⟩

/-- `len(df)`: the row count (length of the first column; every column agrees
    on a well-formed table). -/
def Table.nRows (t : Table) : ℕ :=
  match t.cols with
  | [] => 0
  | c :: _ => c.vals.length

/-- Well-formedness: all columns have the same length. -/
def Table.WF (t : Table) : Prop := ∀ c ∈ t.cols, c.vals.length = t.nRows

instance (t : Table) : Decidable t.WF :=
  decidable_of_iff (∀ c ∈ t.cols, c.vals.length = t.nRows) Iff.rfl

/-- A cell is admissible for a dtype (pandas stores NaN in numeric columns,
    NaT in datetime columns, strings or NaN in object columns). -/
def Val.okFor : Dtype → Val → Bool
  | _, Val.na => true
  | Dtype.numeric, Val.num _ => true
  | Dtype.object, Val.str _ => true
  | Dtype.datetime, Val.time _ => true
  | _, _ => false

/-- A column whose values match its dtype. -/
def Col.Typed (c : Col) : Prop := ∀ v ∈ c.vals, Val.okFor c.dtype v = true

/-- A table whose columns all match their dtypes. -/
def Table.Typed (t : Table) : Prop := ∀ c ∈ t.cols, c.Typed

instance (c : Col) : Decidable c.Typed :=
  decidable_of_iff (∀ v ∈ c.vals, Val.okFor c.dtype v = true) Iff.rfl

instance (t : Table) : Decidable t.Typed :=
  decidable_of_iff (∀ c ∈ t.cols, c.Typed) Iff.rfl

/-- `df[col].isnull().sum()`. -/
def Col.naCount (c : Col) : ℕ := c.vals.count Val.na

/-- The non-missing numeric values of a column (pandas `skipna` view). -/
def Col.nums (c : Col) : List ℚ :=
  c.vals.filterMap (fun v => match v with | Val.num q => some q | _ => none)

/-- The non-missing string values of a column. -/
def Col.strs (c : Col) : List String :=
  c.vals.filterMap (fun v => match v with | Val.str s => some s | _ => none)

/-- The non-missing timestamp values of a column. -/
def Col.times (c : Col) : List ℤ :=
  c.vals.filterMap (fun v => match v with | Val.time z => some z | _ => none)

/-- `df.select_dtypes(include=["number"]).columns`, in column order. -/
def numericCols (t : Table) : List Col :=
  t.cols.filter (fun c => decide (c.dtype = Dtype.numeric))

/-- `df.select_dtypes(include=["object", "category"]).columns`, in column
    order (datetime columns belong to neither selection). -/
def catCols (t : Table) : List Col :=
  t.cols.filter (fun c => decide (c.dtype = Dtype.object))

/-- Row `i` of a table, the tuple `drop_duplicates` compares. -/
def Table.row (t : Table) (i : ℕ) : List Val :=
  t.cols.map (fun c => c.vals.getD i Val.na)

/-- All rows of a table, in order. -/
def Table.rowsOf (t : Table) : List (List Val) :=
  (List.range t.nRows).map t.row

/-- Keep-mask of `DataFrame.drop_duplicates`: a row is kept iff no equal row
    occurred before it (pandas compares NaN cells as equal here). -/
def dupMaskAux (seen : List (List Val)) : List (List Val) → List Bool
  | [] => []
  | r :: rs => (if r ∈ seen then false else true) :: dupMaskAux (r :: seen) rs

/-- Keep-mask starting from no rows seen. -/
def dupMask (rows : List (List Val)) : List Bool := dupMaskAux [] rows

/-- Boolean-mask row selection, as pandas applies a keep-mask to a column. -/
def filterMask {α : Type} : List Bool → List α → List α
  | b :: bs, a :: as => if b then a :: filterMask bs as else filterMask bs as
  | _, _ => []

/-- The cleansing metrics record `etl_stats` of src/etl.py lines 70-74. -/
structure EtlStats : Type where
  duplicates_removed : ℕ
  missing_imputed : ℕ
  outliers_handled : ℕ
deriving DecidableEq

/-- Step 1 of `perform_etl` (src/etl.py lines 24-27):
    `df = df.drop_duplicates()` and
    `duplicates_removed = initial_rows - len(df)`. -/
def etl_dedup (t : Table) : Table × ℕ :=
  let mask := dupMask t.rowsOf
  let t2 : Table := ⟨t.cols.map (fun c => { c with vals := filterMask mask c.vals })⟩
  (t2, t.nRows - t2.nRows)

/-- One value under `pd.to_datetime`: NaN maps to NaT, a string maps to a
    timestamp when the parser accepts it. -/
def convertVal (parse : String → Option ℤ) : Val → Val
  | Val.str s =>
    match parse s with
    | some z => Val.time z
    | none => Val.na
  | Val.na => Val.na
  | v => v

/-- Whether `pd.to_datetime(df[col], errors="ignore")` succeeds for the whole
    column: every value is a parseable string or missing. -/
def colParses (parse : String → Option ℤ) (c : Col) : Bool :=
  c.vals.all (fun v =>
    match v with
    | Val.str s => (parse s).isSome
    | Val.na => true
    | _ => false)

/-- Step 2 of `perform_etl` (src/etl.py lines 29-36): each object column is
    converted to datetime when the conversion raises no error; with
    `errors="ignore"` the conversion is all-or-nothing per column.  The date
    parser itself is a pandas internal, so it is a parameter here. -/
def convertCol (parse : String → Option ℤ) (c : Col) : Col :=
  if c.dtype = Dtype.object ∧ colParses parse c = true then
    { c with dtype := Dtype.datetime, vals := c.vals.map (convertVal parse) }
  else c

/-- Step 2 of `perform_etl` over the whole table. -/
def etl_datetime (parse : String → Option ℤ) (t : Table) : Table :=
  ⟨t.cols.map (convertCol parse)⟩

/-- Ascending sort, as pandas sorts values. -/
def sortQ (l : List ℚ) : List ℚ := List.insertionSort (· ≤ ·) l

/-- `Series.median()` over the non-missing values; `none` is pandas' NaN
    result on an empty selection. -/
def medianQ (l : List ℚ) : Option ℚ :=
  let s := sortQ l
  let n := s.length
  if n = 0 then none
  else if n % 2 = 1 then some (s.getD (n / 2) 0)
  else some ((s.getD (n / 2 - 1) 0 + s.getD (n / 2) 0) / 2)

/-- Code-point lexicographic strict comparison of character lists, which is
    how Python (and hence pandas sorting of string values) compares strings. -/
def lexLt : List Char → List Char → Bool
  | [], [] => false
  | [], _ :: _ => true
  | _ :: _, [] => false
  | a :: as, b :: bs =>
    if a.toNat < b.toNat then true
    else if b.toNat < a.toNat then false
    else lexLt as bs

/-- Python's `<=` on strings. -/
def strLe (a b : String) : Bool := !(lexLt b.data a.data)

/-- `<=` on timestamps. -/
def intLe (a b : ℤ) : Bool := decide (a ≤ b)

/-- The least element of a list under a boolean comparison, `none` on the
    empty list. -/
def minListBy {α : Type} (le : α → α → Bool) : List α → Option α
  | [] => none
  | a :: as =>
    match minListBy le as with
    | none => some a
    | some m => some (if le a m then a else m)

/-- `Series.mode()[0]` over the non-missing values: pandas returns the modes
    sorted ascending, so index 0 holds the LEAST most-frequent value; `none`
    when there are no non-missing values (`mode().empty`). -/
def modeMin {α : Type} (le : α → α → Bool) [DecidableEq α] (l : List α) : Option α :=
  minListBy le
    (l.filter (fun a => decide (l.count a = (l.map (fun a => l.count a)).foldr max 0)))

/-- Step 3 of `perform_etl` (src/etl.py lines 40-50), per column: fill the
    missing cells (numeric: median; datetime: mode, or NaT when every value
    is missing; object: mode, or the literal "Missing" when every value is
    missing).  `fillna` with a NaN/NaT filler leaves the cells missing. -/
def imputeCol (c : Col) : Col :=
  if 0 < c.naCount then
    if c.dtype = Dtype.numeric then
      match medianQ c.nums with
      | some m => { c with vals := c.vals.map (fun v => if v = Val.na then Val.num m else v) }
      | none => c
    else if c.dtype = Dtype.datetime then
      match modeMin intLe c.times with
      | some m => { c with vals := c.vals.map (fun v => if v = Val.na then Val.time m else v) }
      | none => c
    else
      match modeMin strLe c.strs with
      | some m => { c with vals := c.vals.map (fun v => if v = Val.na then Val.str m else v) }
      | none => { c with vals := c.vals.map (fun v => if v = Val.na then Val.str "Missing" else v) }
  else c

/-- Step 3 of `perform_etl` over the whole table; `missing_imputed` adds a
    column's missing-cell count exactly when it is positive (src/etl.py
    lines 41-42). -/
def etl_impute (t : Table) : Table × ℕ :=
  (⟨t.cols.map imputeCol⟩,
   (t.cols.map (fun c => if 0 < c.naCount then c.naCount else 0)).sum)

/-- Linear interpolation of a sorted value list at fractional position `h`:
    with `i = floor(h)` and `g = h - i`, the value `s[i] + g * (s[i+1] - s[i])`
    (the last index interpolates with itself).  This is numpy's "linear"
    interpolation, pandas' default for `Series.quantile`. -/
def interpAt (s : List ℚ) (h : ℚ) : ℚ :=
  s.getD (⌊h⌋).toNat 0 +
    (h - (((⌊h⌋).toNat : ℕ) : ℚ)) *
      (s.getD ((⌊h⌋).toNat + 1) (s.getD (⌊h⌋).toNat 0) - s.getD (⌊h⌋).toNat 0)

/-- `Series.quantile(p)` with pandas' default linear interpolation, over the
    non-missing values; `none` when there are none (pandas: NaN). -/
def quantileQ (l : List ℚ) (p : ℚ) : Option ℚ :=
  if (sortQ l).length = 0 then none
  else some (interpAt (sortQ l) (p * (((sortQ l).length : ℚ) - 1)))

/-- The `[lower_bound, upper_bound]` IQR fence of src/etl.py lines 56-60. -/
def iqrBounds (c : Col) : Option (ℚ × ℚ) :=
  match quantileQ c.nums (1/4), quantileQ c.nums (3/4) with
  | some q1, some q3 => some (q1 - 3/2 * (q3 - q1), q3 + 3/2 * (q3 - q1))
  | _, _ => none

/-- The two successive `np.where` winsorisation writes of src/etl.py
    lines 67-68 on one cell (NaN compares false, hence stays). -/
def capVal (lb ub : ℚ) : Val → Val
  | Val.num x =>
    let x1 := if x < lb then lb else x
    Val.num (if ub < x1 then ub else x1)
  | v => v

/-- Step 4 of `perform_etl` (src/etl.py lines 55-68), per column: count the
    values outside the fence, then cap them.  Non-numeric columns are not in
    `select_dtypes(include=[np.number])` and are untouched. -/
def capCol (c : Col) : Col × ℕ :=
  if c.dtype = Dtype.numeric then
    match iqrBounds c with
    | some (lb, ub) =>
      ({ c with vals := c.vals.map (capVal lb ub) },
       (c.nums.filter (fun x => decide (x < lb) || decide (ub < x))).length)
    | none => (c, 0)
  else (c, 0)

/-- Step 4 of `perform_etl` over the whole table. -/
def etl_outliers (t : Table) : Table × ℕ :=
  (⟨t.cols.map (fun c => (capCol c).1)⟩, (t.cols.map (fun c => (capCol c).2)).sum)

/-- `perform_etl` (src/etl.py lines 17-76): deduplicate, convert to datetime,
    impute, cap outliers; returns the cleaned table and the metrics record. -/
def perform_etl (parse : String → Option ℤ) (t : Table) : Table × EtlStats :=
  let d := etl_dedup t
  let t2 := etl_datetime parse d.1
  let m := etl_impute t2
  let o := etl_outliers m.1
  (o.1, ⟨d.2, m.2, o.2⟩)

/-- A heap of DataFrame objects; a DataFrame variable is an index into it. -/
abbrev Heap := List Table

/-- Dereference a DataFrame variable; a dangling reference yields an empty
    frame. -/
def heapGet (h : Heap) (r : ℕ) : Table := h.getD r ⟨[]⟩

/-- `perform_etl` at the object level.  Line 26 of src/etl.py rebinds the
    local name `df` to the fresh DataFrame object returned by
    `drop_duplicates` (pandas returns a new frame, not a view of the input);
    every later `df[col] = ...` write of steps 2-4 therefore mutates that
    fresh object.  This model makes the object identities explicit: the
    result is the final heap, the reference `df` holds on return, and the
    metrics. -/
def perform_etl_heap (parse : String → Option ℤ) (h : Heap) (df : ℕ) :
    Heap × ℕ × EtlStats :=
  let d := etl_dedup (heapGet h df)
  let h1 := h ++ [d.1]
  let df1 := h.length
  let h2 := h1.set df1 (etl_datetime parse (heapGet h1 df1))
  let m := etl_impute (heapGet h2 df1)
  let h3 := h2.set df1 m.1
  let o := etl_outliers (heapGet h3 df1)
  let h4 := h3.set df1 o.1
  (h4, df1, ⟨d.2, m.2, o.2⟩)

/-- `Series.mean()` over the non-missing values (`none` is pandas' NaN on an
    empty selection). -/
def meanQ (l : List ℚ) : Option ℚ :=
  if l = [] then none else some (l.sum / (l.length : ℚ))

/-- `Series.var()` / `Series.std()^2` (skipna, ddof=1); `none` (NaN) when
    fewer than two non-missing values remain. -/
def varQ (l : List ℚ) : Option ℚ :=
  if l.length ≤ 1 then none
  else some ((l.map (fun x => (x - l.sum / (l.length : ℚ)) ^ 2)).sum / ((l.length : ℚ) - 1))

/-- The biased sample moment `sum((x - mean)^k)/n` scipy's skewness and
    kurtosis are built from. -/
def momentQ (l : List ℚ) (k : ℕ) : ℚ :=
  ((l.map (fun x => (x - l.sum / (l.length : ℚ)) ^ k)).sum) / (l.length : ℚ)

/-- One row of the descriptive-statistics table (src/stats.py lines 13-22).
    `none` fields are pandas/scipy NaN results.  Irrational statistics carry
    rational encodings that determine them: `stdSq` is the square of
    "Std Dev" (the ddof=1 sample variance), and `skewSgnSq` is
    `sign(skew) * skew^2` for scipy's biased skewness `m3 / m2^(3/2)`. -/
structure StatRow : Type where
  column : String
  mean : Option ℚ
  median : Option ℚ
  stdSq : Option ℚ
  minV : Option ℚ
  maxV : Option ℚ
  skewSgnSq : Option ℚ
  kurtosis : Option ℚ
deriving DecidableEq

/-- The loop body of src/stats.py lines 11-22 for one numeric column, over
    its non-missing values (scipy `nan_policy="omit"`, pandas skipna).
    scipy's skewness and kurtosis over a constant or empty selection (zero
    second moment) are NaN sentinels, recorded as `none`. -/
def statRowOf (c : Col) : StatRow :=
  if c.nums = [] then
    ⟨c.name, none, none, none, none, none, none, none⟩
  else
    ⟨c.name,
     meanQ c.nums,
     medianQ c.nums,
     varQ c.nums,
     minListBy (fun a b => decide (a ≤ b)) c.nums,
     minListBy (fun a b => decide (b ≤ a)) c.nums,
     if momentQ c.nums 2 = 0 then none
     else some ((if momentQ c.nums 3 < 0 then -1 else 1) *
       momentQ c.nums 3 ^ 2 / momentQ c.nums 2 ^ 3),
     if momentQ c.nums 2 = 0 then none else some (momentQ c.nums 4 / momentQ c.nums 2 ^ 2 - 3)⟩

/-- `generate_descriptive_stats` (src/stats.py lines 4-24): `none` is the
    `return None` signal for a table with no numeric columns; otherwise one
    statistics row per numeric column, in column order. -/
def generate_descriptive_stats (t : Table) : Option (List StatRow) :=
  let numerical := numericCols t
  if numerical.length = 0 then none
  else some (numerical.map statRowOf)

/-- Round to the nearest integer with ties to even, Python's `round`. -/
def roundHalfEven (q : ℚ) : ℤ :=
  if q - (⌊q⌋ : ℚ) < 1/2 then ⌊q⌋
  else if 1/2 < q - (⌊q⌋ : ℚ) then ⌊q⌋ + 1
  else if ⌊q⌋ % 2 = 0 then ⌊q⌋ else ⌊q⌋ + 1

/-- Python's `round(x, 1)`. -/
def round1 (q : ℚ) : ℚ := ((roundHalfEven (q * 10) : ℤ) : ℚ) / 10

/-- `missing_penalty` of src/stats.py line 37. -/
def missingPenalty (dfo : Table) (s : EtlStats) : ℚ :=
  (s.missing_imputed : ℚ) / ((dfo.nRows * dfo.cols.length : ℕ) : ℚ) * 40

/-- `duplicate_penalty` of src/stats.py line 38. -/
def duplicatePenalty (dfo : Table) (s : EtlStats) : ℚ :=
  (s.duplicates_removed : ℚ) / ((dfo.nRows : ℕ) : ℚ) * 30

/-- `numeric_cells` of src/stats.py line 41: `select_dtypes` keeps every
    row of the frame, so the row factor is the full raw row count. -/
def numericCells (dfo : Table) : ℕ := dfo.nRows * (numericCols dfo).length

/-- `outlier_penalty` of src/stats.py lines 42-44. -/
def outlierPenalty (dfo : Table) (s : EtlStats) : ℚ :=
  if 0 < numericCells dfo then
    (s.outliers_handled : ℚ) / ((numericCells dfo : ℕ) : ℚ) * 30
  else 0

/-- `calculate_health_score` (src/stats.py lines 26-47); `dfc`, the cleaned
    table, is accepted and unused exactly as in the source.  The source
    returns `max(0, min(100, round(score, 1)))`. -/
def calculate_health_score (dfo : Table) (dfc : Table) (s : EtlStats) : ℚ :=
  let total_cells := dfo.nRows * dfo.cols.length
  let total_rows := dfo.nRows
  if total_cells = 0 ∨ total_rows = 0 then 0
  else
    let score := 100 - (missingPenalty dfo s + duplicatePenalty dfo s + outlierPenalty dfo s)
    max 0 (min 100 (round1 score))

/-- The health-score formula exactly as the specification words it (spec.md
    section 4.3): each penalty is 0 when its own denominator is 0, and the
    score is `clamp(100 - penalty sum, 0, 100)` rounded to 1 decimal, with
    an input of no cells scoring 0. -/
def healthScoreSpec (dfo : Table) (s : EtlStats) : ℚ :=
  let total_cells : ℕ := dfo.nRows * dfo.cols.length
  let total_rows : ℕ := dfo.nRows
  let numeric_cells : ℕ := numericCells dfo
  if total_cells = 0 then 0
  else
    let mp : ℚ := if total_cells = 0 then 0 else (s.missing_imputed : ℚ) / (total_cells : ℚ) * 40
    let dp : ℚ := if total_rows = 0 then 0 else (s.duplicates_removed : ℚ) / (total_rows : ℚ) * 30
    let op : ℚ := if numeric_cells = 0 then 0 else (s.outliers_handled : ℚ) / (numeric_cells : ℚ) * 30
    round1 (max 0 (min 100 (100 - (mp + dp + op))))

/-- The chart kinds src/visuals.py can emit, in rule order. -/
inductive ChartKind : Type
  | heatmap
  | histogram
  | scatter
  | box
  | bar
  | pie
  | violin
  | line
  | contour
deriving DecidableEq

/-- One emitted chart: its kind and the resolved column names it involves
    (each interpretation template is parameterized only by these names). -/
structure VSpec : Type where
  kind : ChartKind
  cols : List String
deriving DecidableEq

/-- The first entry whose value is maximal (later entries replace the
    current best only when strictly greater): `Series.idxmax` keeps the
    first occurrence of the maximum. -/
def pickMaxBy {α β : Type} (lt : β → β → Bool) : List (α × β) → Option (α × β)
  | [] => none
  | e :: es =>
    match pickMaxBy lt es with
    | none => some e
    | some m => some (if lt e.2 m.2 then m else e)

/-- The first entry whose value is minimal: `Series.idxmin`. -/
def pickMinBy {α β : Type} (lt : β → β → Bool) (l : List (α × β)) : Option (α × β) :=
  pickMaxBy (fun a b => lt b a) l

/-- `numeric_df.var().idxmax()` of src/visuals.py line 25: per-column
    variances with NaN entries skipped; pandas `idxmax` raises
    `ValueError("attempt to get argmax of an empty sequence")` when every
    variance is NaN (so, whenever no numeric column has two non-missing
    values). -/
def varIdxmax (numeric : List Col) : Except String String :=
  match pickMaxBy (fun a b : ℚ => decide (a < b))
      (numeric.filterMap (fun c => (varQ c.nums).map (fun v => (c.name, v)))) with
  | some m => Except.ok m.1
  | none => Except.error "attempt to get argmax of an empty sequence"

/-- The rows where both columns are non-missing: pandas'
    pairwise-complete observations for `DataFrame.corr`. -/
def pairedNums (c1 c2 : Col) : List (ℚ × ℚ) :=
  (c1.vals.zip c2.vals).filterMap (fun p =>
    match p with
    | (Val.num x, Val.num y) => some (x, y)
    | _ => none)

/-- The SQUARE of the Pearson correlation of two columns, `none` where
    pandas reports NaN (no paired observations, or a degenerate variance).
    Squaring keeps the value rational; `|r| < 1` iff `r^2 < 1` and
    `|r|`-maxima are `r^2`-maxima, so every comparison src/visuals.py
    performs on `corr.abs()` is preserved by this encoding. -/
def corrSq (c1 c2 : Col) : Option ℚ :=
  let ps := pairedNums c1 c2
  if ps.length = 0 then none
  else
    let n : ℚ := (ps.length : ℚ)
    let mx := (ps.map Prod.fst).sum / n
    let my := (ps.map Prod.snd).sum / n
    let vx := (ps.map (fun p => (p.1 - mx) ^ 2)).sum
    let vy := (ps.map (fun p => (p.2 - my) ^ 2)).sum
    let cov := (ps.map (fun p => (p.1 - mx) * (p.2 - my))).sum
    if vx = 0 ∨ vy = 0 then none
    else some (cov ^ 2 / (vx * vy))

/-- `corr.abs().unstack()` filtered by `corr_unstacked < 1` (src/visuals.py
    lines 20-21): all ordered pairs in DataFrame-unstack order (outer loop
    over the column labels, inner over the row labels), keeping exactly the
    entries whose absolute correlation is defined and strictly below 1 — the
    filter drops the diagonal, every perfectly correlated pair, and every
    NaN entry.  Values are squared absolute correlations. -/
def corrFiltered (numeric : List Col) : List ((String × String) × ℚ) :=
  (numeric.flatMap (fun c1 => numeric.map (fun c2 => (c1, c2)))).filterMap
    (fun p =>
      match corrSq p.1 p.2 with
      | some v => if v < 1 then some ((p.1.name, p.2.name), v) else none
      | none => none)

/-- The strongest-pair selection shared by rules 3 and 9 (src/visuals.py
    lines 33-35 and 100-102): defined when rule 1 ran (at least two numeric
    columns) and the filtered unstacked series is non-empty; `idxmax` then
    returns the first pair attaining the maximum. -/
def strongestPair (numeric : List Col) : Option (String × String) :=
  if 1 < numeric.length then
    match pickMaxBy (fun a b : ℚ => decide (a < b)) (corrFiltered numeric) with
    | some m => some m.1
    | none => none
  else none

/-- `Series.nunique()`: the number of distinct non-missing values. -/
def Col.nunique (c : Col) : ℕ :=
  (c.vals.filter (fun v => decide (v ≠ Val.na))).dedup.length

/-- Rule 1 (src/visuals.py lines 11-17): correlation heatmap over all
    numeric columns when there are at least two. -/
def rule_heatmap (numeric : List Col) : List VSpec :=
  if 1 < numeric.length then [⟨ChartKind.heatmap, numeric.map Col.name⟩] else []

/-- Rule 2 (src/visuals.py lines 23-30): histogram of the maximum-variance
    numeric column.  `numeric_df.empty` (no rows or no numeric columns)
    guards the rule, but inside it `var().idxmax()` can still raise. -/
def rule_histogram (t : Table) (numeric : List Col) : Except String (List VSpec) :=
  if ¬ (t.nRows = 0 ∨ numeric.length = 0) then
    match varIdxmax numeric with
    | Except.ok cname => Except.ok [⟨ChartKind.histogram, [cname]⟩]
    | Except.error e => Except.error e
  else Except.ok []

/-- Rule 3 (src/visuals.py lines 32-45): scatter plot of the strongest pair
    (the `trendline` ImportError fallback emits the same spec). -/
def rule_scatter (numeric : List Col) : List VSpec :=
  match strongestPair numeric with
  | some p => [⟨ChartKind.scatter, [p.1, p.2]⟩]
  | none => []

/-- Rule 4 (src/visuals.py lines 47-54): box plot over the first five
    numeric columns, requiring only that a numeric column exists. -/
def rule_box (numeric : List Col) : List VSpec :=
  if 0 < numeric.length then [⟨ChartKind.box, (numeric.take 5).map Col.name⟩] else []

/-- Rule 5 (src/visuals.py lines 56-68): frequency bars for the qualifying
    categorical column (distinct count in (1, 20]) with the MOST distinct
    values, first in column order on ties; `cat_df.empty` also requires at
    least one row. -/
def rule_bar (t : Table) (cat : List Col) : List VSpec :=
  if ¬ (t.nRows = 0 ∨ cat.length = 0) then
    match pickMaxBy (fun a b : ℕ => decide (a < b))
        ((cat.map (fun c => (c.name, c.nunique))).filter
          (fun e => decide (1 < e.2) && decide (e.2 ≤ 20))) with
    | some m => [⟨ChartKind.bar, [m.1]⟩]
    | none => []
  else []

/-- Rule 6 (src/visuals.py lines 70-81): pie chart for the qualifying
    categorical column (distinct count in (1, 5]) with the FEWEST distinct
    values, first in column order on ties. -/
def rule_pie (t : Table) (cat : List Col) : List VSpec :=
  if ¬ (t.nRows = 0 ∨ cat.length = 0) then
    match pickMinBy (fun a b : ℕ => decide (a < b))
        ((cat.map (fun c => (c.name, c.nunique))).filter
          (fun e => decide (1 < e.2) && decide (e.2 ≤ 5))) with
    | some m => [⟨ChartKind.pie, [m.1]⟩]
    | none => []
  else []

/-- Rule 7 (src/visuals.py lines 83-89): violin plot of the numeric column
    at index `min(1, count - 1)`. -/
def rule_violin (numeric : List Col) : List VSpec :=
  if 0 < numeric.length then
    [⟨ChartKind.violin, [(numeric.getD (min 1 (numeric.length - 1)) default).name]⟩]
  else []

/-- Rule 8 (src/visuals.py lines 91-97): row-order line chart of the first
    numeric column. -/
def rule_line (numeric : List Col) : List VSpec :=
  if 0 < numeric.length then [⟨ChartKind.line, [(numeric.getD 0 default).name]⟩] else []

/-- Rule 9 (src/visuals.py lines 99-106): density contour over the same
    strongest pair as rule 3. -/
def rule_contour (numeric : List Col) : List VSpec :=
  match strongestPair numeric with
  | some p => [⟨ChartKind.contour, [p.1, p.2]⟩]
  | none => []

/-- `generate_visuals` (src/visuals.py lines 4-108): the nine rules in their
    fixed order.  An uncaught exception in rule 2 aborts the whole call, so
    the result is `Except`.  Plotly rendering is out of scope; each emitted
    spec records the decision data (chart kind and resolved column names). -/
def generate_visuals (t : Table) : Except String (List VSpec) :=
  match rule_histogram t (numericCols t) with
  | Except.error e => Except.error e
  | Except.ok s2 =>
    Except.ok (rule_heatmap (numericCols t) ++ s2 ++ rule_scatter (numericCols t) ++
      rule_box (numericCols t) ++ rule_bar t (catCols t) ++ rule_pie t (catCols t) ++
      rule_violin (numericCols t) ++ rule_line (numericCols t) ++
      rule_contour (numericCols t))

/-- The mode tie-break exactly as the specification words it (spec.md
    section 4.1 step 3): the FIRST value encountered in surviving row order
    among the most-frequent candidates.  Stated for comparison with the
    source's `modeMin`. -/
def specFirstMode {α : Type} [DecidableEq α] (l : List α) : Option α :=
  (l.filter (fun a => decide (l.count a = (l.map (fun a => l.count a)).foldr max 0))).head?

/-- The strongest-pair selection exactly as the specification words it
    (spec.md section 4.4 step 3): exclude only the self-correlation
    diagonal, keeping every pair of distinct columns whose correlation is
    defined — including perfectly correlated ones — then take the first pair
    attaining the maximum absolute correlation.  Stated for comparison with
    the source's `strongestPair`. -/
def specStrongestPair (numeric : List Col) : Option (String × String) :=
  if 1 < numeric.length then
    match pickMaxBy (fun a b : ℚ => decide (a < b))
        ((numeric.enum.flatMap (fun p1 => numeric.enum.map (fun p2 => (p1, p2)))).filterMap
          (fun q =>
            if q.1.1 = q.2.1 then none
            else (corrSq q.1.2 q.2.2).map (fun v => ((q.1.2.name, q.2.2.name), v)))) with
    | some m => some m.1
    | none => none
  else none

theorem roundHalfEven_nonneg {q : ℚ} (h : 0 ≤ q) : 0 ≤ roundHalfEven q := by
  have hf : (0 : ℤ) ≤ ⌊q⌋ := Int.floor_nonneg.mpr h
  unfold roundHalfEven
  split_ifs <;> omega

theorem roundHalfEven_le_int {q : ℚ} {n : ℤ} (h : q ≤ (n : ℚ)) : roundHalfEven q ≤ n := by
  have hf : ⌊q⌋ ≤ n := by
    have h2 := Int.floor_le_floor h
    simpa using h2
  unfold roundHalfEven
  by_cases heq : ⌊q⌋ = n
  · have hc : q - (⌊q⌋ : ℚ) < 1/2 := by
      have hqn : q - (⌊q⌋ : ℚ) ≤ 0 := by
        rw [heq]
        linarith
      linarith
    rw [if_pos hc]
    omega
  · have hlt : ⌊q⌋ + 1 ≤ n := by omega
    split_ifs <;> omega

theorem round1_nonneg {q : ℚ} (h : 0 ≤ q) : 0 ≤ round1 q := by
  have h2 : (0 : ℤ) ≤ roundHalfEven (q * 10) := roundHalfEven_nonneg (by linarith)
  unfold round1
  have h3 : (0 : ℚ) ≤ (roundHalfEven (q * 10) : ℚ) := by exact_mod_cast h2
  linarith

theorem round1_le_100 {q : ℚ} (h : q ≤ 100) : round1 q ≤ 100 := by
  have h2 : roundHalfEven (q * 10) ≤ (1000 : ℤ) := roundHalfEven_le_int (by push_cast; linarith)
  unfold round1
  rw [div_le_iff₀ (by norm_num : (0:ℚ) < 10)]
  exact_mod_cast h2

theorem round1_nonpos {q : ℚ} (h : q ≤ 0) : round1 q ≤ 0 := by
  have h2 : roundHalfEven (q * 10) ≤ (0 : ℤ) := by
    have h3 := roundHalfEven_le_int (q := q * 10) (n := 0) (by norm_num; linarith)
    exact h3
  unfold round1
  rw [div_le_iff₀ (by norm_num : (0:ℚ) < 10)]
  have h4 : ((roundHalfEven (q * 10) : ℤ) : ℚ) ≤ 0 := by exact_mod_cast h2
  linarith

theorem round1_zero : round1 0 = 0 := by
  norm_num [round1, roundHalfEven]

theorem clamp_round1_comm {x : ℚ} (hx : x ≤ 100) :
    max 0 (min 100 (round1 x)) = round1 (max 0 (min 100 x)) := by
  rw [min_eq_right hx, min_eq_right (round1_le_100 hx)]
  by_cases hx0 : 0 ≤ x
  · rw [max_eq_right hx0, max_eq_right (round1_nonneg hx0)]
  · push_neg at hx0
    rw [max_eq_left hx0.le, max_eq_left (round1_nonpos hx0.le), round1_zero]

theorem missingPenalty_nonneg (dfo : Table) (s : EtlStats) : 0 ≤ missingPenalty dfo s := by
  unfold missingPenalty
  positivity

theorem duplicatePenalty_nonneg (dfo : Table) (s : EtlStats) : 0 ≤ duplicatePenalty dfo s := by
  unfold duplicatePenalty
  positivity

theorem outlierPenalty_nonneg (dfo : Table) (s : EtlStats) : 0 ≤ outlierPenalty dfo s := by
  unfold outlierPenalty
  split_ifs
  · positivity
  · exact le_refl 0

/-- C1: for every raw table and every cleansing-metrics record, the source's
    `calculate_health_score` computes exactly the formula the specification
    states: each penalty is 0 when its denominator is 0, the score is
    clamp(100 - (missing + duplicate + outlier penalties), 0, 100) rounded to
    one decimal, and a table with no cells scores 0 with no division by zero
    (the zero-cell guard returns before any division). -/
theorem health_score_matches_spec (dfo dfc : Table) (s : EtlStats) :
    calculate_health_score dfo dfc s = healthScoreSpec dfo s := by
  unfold calculate_health_score healthScoreSpec
  by_cases h0 : dfo.nRows * dfo.cols.length = 0
  · simp [h0]
  · have hR : ¬ dfo.nRows = 0 := by
      intro h
      exact h0 (by rw [h, Nat.zero_mul])
    rw [if_neg (by tauto : ¬ (dfo.nRows * dfo.cols.length = 0 ∨ dfo.nRows = 0)),
      if_neg h0, if_neg h0, if_neg hR]
    have hsum : 0 ≤ missingPenalty dfo s + duplicatePenalty dfo s + outlierPenalty dfo s :=
      add_nonneg (add_nonneg (missingPenalty_nonneg dfo s) (duplicatePenalty_nonneg dfo s))
        (outlierPenalty_nonneg dfo s)
    have hx : 100 - (missingPenalty dfo s + duplicatePenalty dfo s + outlierPenalty dfo s) ≤ 100 := by
      linarith
    rw [clamp_round1_comm hx]
    by_cases hnc : numericCells dfo = 0
    · rw [if_pos hnc]
      unfold missingPenalty duplicatePenalty outlierPenalty
      rw [if_neg (by omega : ¬ 0 < numericCells dfo)]
    · rw [if_neg hnc]
      unfold missingPenalty duplicatePenalty outlierPenalty
      rw [if_pos (by omega : 0 < numericCells dfo)]

instance {ε α : Type} [DecidableEq ε] [DecidableEq α] : DecidableEq (Except ε α) := fun a b =>
  match a, b with
  | Except.error x, Except.error y =>
    if h : x = y then isTrue (by rw [h]) else isFalse (by intro hh; cases hh; exact h rfl)
  | Except.ok x, Except.ok y =>
    if h : x = y then isTrue (by rw [h]) else isFalse (by intro hh; cases hh; exact h rfl)
  | Except.error _, Except.ok _ => isFalse (by intro hh; cases hh)
  | Except.ok _, Except.error _ => isFalse (by intro hh; cases hh)

/-- A pandas date parser instantiation that rejects everything: adequate for
    concrete tables here, whose string values (single letters) no date
    format accepts. -/
def noParse : String → Option ℤ := fun _ => none

/-- Table with columns A = [1, 1] and B = [NaN, 5]. -/
def ceFixpointTable : Table :=
  ⟨[⟨"A", Dtype.numeric, [Val.num 1, Val.num 1]⟩,
    ⟨"B", Dtype.numeric, [Val.na, Val.num 5]⟩]⟩

/-- C2 counterexample: the first cleansing pass of `ceFixpointTable` imputes
    B's missing cell with the median 5 of its one non-missing value, which
    makes the two surviving rows identical; feeding the cleaned table back
    through the Cleansing Engine removes one duplicate, refuting
    `duplicates_removed = 0` on the round trip. -/
theorem cleansing_not_fixpoint :
    (perform_etl noParse ceFixpointTable).2.missing_imputed = 1 ∧
    (perform_etl noParse (perform_etl noParse ceFixpointTable).1).2.duplicates_removed = 1 := by
  decide

/-- Table with a single numeric column A = [NaN]. -/
def ceAllMissingTable : Table := ⟨[⟨"A", Dtype.numeric, [Val.na]⟩]⟩

/-- C3 counterexample: a numeric column whose values are all missing keeps
    its missing value through cleansing (the median of an empty selection is
    NaN, and `fillna(NaN)` fills nothing), so a table output by the
    Cleansing Engine CAN have a Numeric column containing a missing value. -/
theorem cleaned_numeric_can_keep_missing :
    ((perform_etl noParse ceAllMissingTable).1.cols.getD 0 default).dtype = Dtype.numeric ∧
    Val.na ∈ ((perform_etl noParse ceAllMissingTable).1.cols.getD 0 default).vals := by
  decide

/-- Zero-row table with one text column. -/
def ceEmptyObjectTable : Table := ⟨[⟨"C", Dtype.object, []⟩]⟩

/-- C7 counterexample: on a zero-row table with one text column the engine
    returns all-zero metrics but NOT the table unchanged: `pd.to_datetime`
    on an empty object column succeeds vacuously and reclassifies the column
    as datetime. -/
theorem empty_table_not_returned_unchanged :
    (perform_etl noParse ceEmptyObjectTable).1 ≠ ceEmptyObjectTable ∧
    (perform_etl noParse ceEmptyObjectTable).2 = ⟨0, 0, 0⟩ ∧
    ((perform_etl noParse ceEmptyObjectTable).1.cols.getD 0 default).dtype = Dtype.datetime := by
  decide

/-- Cleaned table with one numeric column and a single row. -/
def ceOneRowTable : Table := ⟨[⟨"A", Dtype.numeric, [Val.num 1]⟩]⟩

/-- C4 failing input: on a cleaned table with one numeric column and one row,
    every column variance is NaN (ddof = 1 over a single value), and
    `numeric_df.var().idxmax()` in rule 2 raises
    ValueError("attempt to get argmax of an empty sequence"): the selector
    does not return a spec sequence for this table shape. -/
theorem visuals_raise_on_single_row :
    generate_visuals ceOneRowTable =
      Except.error "attempt to get argmax of an empty sequence" := by
  decide

/-- Two distinct, perfectly correlated numeric columns. -/
def cePerfectCorrTable : Table :=
  ⟨[⟨"A", Dtype.numeric, [Val.num 1, Val.num 2, Val.num 3]⟩,
    ⟨"B", Dtype.numeric, [Val.num 2, Val.num 4, Val.num 6]⟩]⟩

/-- C5 counterexample: columns A and B are distinct and perfectly correlated
    (|r| = 1).  Under the specification's selection (self-correlation
    diagonal excluded, perfect pairs eligible) the pair (A, B) is selected;
    the code's filter `corr_unstacked < 1` also drops perfect pairs, so no
    pair is selected and no scatter spec is emitted at all. -/
theorem perfect_pair_not_selected :
    specStrongestPair (numericCols cePerfectCorrTable) = some ("A", "B") ∧
    strongestPair (numericCols cePerfectCorrTable) = none ∧
    generate_visuals cePerfectCorrTable = Except.ok
      [⟨ChartKind.heatmap, ["A", "B"]⟩, ⟨ChartKind.histogram, ["B"]⟩,
       ⟨ChartKind.box, ["A", "B"]⟩, ⟨ChartKind.violin, ["B"]⟩,
       ⟨ChartKind.line, ["A"]⟩] := by
  decide

/-- Five distinct rows whose column C holds ["b", "b", "a", "a", NaN]. -/
def ceModeTieTable : Table :=
  ⟨[⟨"ID", Dtype.numeric, [Val.num 1, Val.num 2, Val.num 3, Val.num 4, Val.num 5]⟩,
    ⟨"C", Dtype.object, [Val.str "b", Val.str "b", Val.str "a", Val.str "a", Val.na]⟩]⟩

/-- C6 counterexample: in column C of `ceModeTieTable` the values "b" and
    "a" tie for the mode and "b" comes first in surviving row order, so the
    specification's tie-break fills with "b"; `mode()[0]` returns the
    candidates sorted ascending and the code fills with "a". -/
theorem mode_tiebreak_not_first_encountered :
    specFirstMode (["b", "b", "a", "a"] : List String) = some "b" ∧
    ((perform_etl noParse ceModeTieTable).1.cols.getD 1 default).vals =
      [Val.str "b", Val.str "b", Val.str "a", Val.str "a", Val.str "a"] := by
  decide

theorem heapGet_append_lt (h : Heap) (t : Table) {r : ℕ} (hr : r < h.length) :
    heapGet (h ++ [t]) r = heapGet h r := by
  unfold heapGet
  rw [List.getD_append _ _ _ _ hr]

theorem heapGet_append_self (h : Heap) (t : Table) : heapGet (h ++ [t]) h.length = t := by
  unfold heapGet
  simp [List.getD]

theorem heapGet_set_self (h : Heap) {r : ℕ} (hr : r < h.length) (t : Table) :
    heapGet (h.set r t) r = t := by
  unfold heapGet
  simp [List.getD, List.getElem?_set, hr]

theorem heapGet_set_ne (h : Heap) {r s : ℕ} (hrs : s ≠ r) (t : Table) :
    heapGet (h.set s t) r = heapGet h r := by
  unfold heapGet
  simp [List.getD, List.getElem?_set, hrs]

/-- C9: the Cleansing Engine never mutates the caller's DataFrame.  In the
    object-level model of `perform_etl`, running on any valid reference `df`
    leaves the object at `df` exactly as it was: `drop_duplicates` returns a
    fresh object, the local name is rebound to it, and every later in-place
    column write lands on the fresh object.  The returned reference holds
    exactly the pure `perform_etl` result and the same metrics, so the
    Health Scorer's raw-table measurements read unmodified data. -/
theorem etl_preserves_caller_table (parse : String → Option ℤ) (h : Heap) (df : ℕ)
    (hdf : df < h.length) :
    heapGet (perform_etl_heap parse h df).1 df = heapGet h df ∧
    heapGet (perform_etl_heap parse h df).1 (perform_etl_heap parse h df).2.1 =
      (perform_etl parse (heapGet h df)).1 ∧
    (perform_etl_heap parse h df).2.2 = (perform_etl parse (heapGet h df)).2 := by
  have hne : h.length ≠ df := by omega
  simp only [perform_etl_heap]
  rw [heapGet_append_self]
  rw [heapGet_set_self _ (by simp : h.length < (h ++ [(etl_dedup (heapGet h df)).1]).length)]
  rw [heapGet_set_self _ (by simp : h.length <
    ((h ++ [(etl_dedup (heapGet h df)).1]).set h.length
      (etl_datetime parse (etl_dedup (heapGet h df)).1)).length)]
  refine ⟨?_, ?_, ?_⟩
  · rw [heapGet_set_ne _ hne, heapGet_set_ne _ hne, heapGet_set_ne _ hne,
      heapGet_append_lt h _ hdf]
  · rw [heapGet_set_self _ (by simp)]
    rfl
  · rfl

theorem filterMask_nil_mask {α : Type} (as : List α) : filterMask [] as = [] := by
  unfold filterMask
  rfl

theorem imputeCol_no_missing {c : Col} (h : c.naCount = 0) : imputeCol c = c := by
  unfold imputeCol
  rw [h]
  simp

theorem capCol_no_nums {c : Col} (h : c.nums = []) : capCol c = (c, 0) := by
  unfold capCol iqrBounds quantileQ
  rw [h]
  simp [sortQ]

theorem convertCol_name (parse : String → Option ℤ) (c : Col) :
    (convertCol parse c).name = c.name := by
  unfold convertCol
  split_ifs <;> rfl

theorem convertCol_vals_empty (parse : String → Option ℤ) {c : Col} (h : c.vals = []) :
    (convertCol parse c).vals = [] := by
  unfold convertCol
  split_ifs <;> simp [h]

/-- C7 (amended): the Cleansing Engine does not fail on an empty table
    (zero rows; a table with zero columns has zero rows as well) and returns
    a metrics record of all zeros together with a table whose columns carry
    the same names and the same (empty) value lists; the one deviation from
    the claim as stated is the classification: a zero-row text column is
    reclassified as datetime, because `pd.to_datetime` succeeds vacuously on
    an empty column, so the table object is not literally unchanged. -/
theorem etl_empty_table (parse : String → Option ℤ) (t : Table) (hwf : t.WF)
    (h0 : t.nRows = 0) :
    (perform_etl parse t).2 = ⟨0, 0, 0⟩ ∧
    (perform_etl parse t).1.cols.map (fun c => (c.name, c.vals)) =
      t.cols.map (fun c => (c.name, c.vals)) := by
  have hempty : ∀ c ∈ t.cols, c.vals = [] := by
    intro c hc
    have h1 := hwf c hc
    rw [h0] at h1
    exact List.length_eq_zero.mp h1
  have hrows : t.rowsOf = [] := by
    unfold Table.rowsOf
    rw [h0]
    rfl
  have hmapid : t.cols.map (fun c => { c with vals := filterMask (dupMask t.rowsOf) c.vals }) = t.cols := by
    rw [List.map_congr_left (g := id) ?_, List.map_id]
    intro c hc
    have hc2 : c.vals = [] := hempty c hc
    rw [hrows]
    show ({ c with vals := filterMask [] c.vals } : Col) = c
    rw [filterMask_nil_mask]
    cases c with
    | mk n d v => simp_all
  have hdedup1 : (etl_dedup t).1 = t := by
    unfold etl_dedup
    simp only [hmapid]
  have hdedup2 : (etl_dedup t).2 = 0 := by
    unfold etl_dedup
    simp only [h0, Nat.zero_sub]
  have hdtvals : ∀ c ∈ (etl_datetime parse t).cols, c.vals = [] := by
    intro c hc
    unfold etl_datetime at hc
    simp only [List.mem_map] at hc
    obtain ⟨c0, hc0, rfl⟩ := hc
    exact convertCol_vals_empty parse (hempty c0 hc0)
  have himp1 : (etl_impute (etl_datetime parse t)).1 = etl_datetime parse t := by
    unfold etl_impute
    cases h : etl_datetime parse t with
    | mk cols =>
      rw [List.map_congr_left (g := id) ?_, List.map_id]
      intro c hc
      show imputeCol c = c
      apply imputeCol_no_missing
      have hcv : c.vals = [] := by
        apply hdtvals
        rw [h]
        exact hc
      simp [Col.naCount, hcv]
  have himp2 : (etl_impute (etl_datetime parse t)).2 = 0 := by
    unfold etl_impute
    apply List.sum_eq_zero
    intro x hx
    simp only [List.mem_map] at hx
    obtain ⟨c, hc, rfl⟩ := hx
    have hnc : c.naCount = 0 := by
      have hcv := hdtvals c hc
      simp [Col.naCount, hcv]
    simp [hnc]
  have hcapcols : ∀ c ∈ (etl_datetime parse t).cols, capCol c = (c, 0) := by
    intro c hc
    apply capCol_no_nums
    have hcv := hdtvals c hc
    simp [Col.nums, hcv]
  have hout1 : (etl_outliers (etl_datetime parse t)).1 = etl_datetime parse t := by
    unfold etl_outliers
    cases h : etl_datetime parse t with
    | mk cols =>
      rw [List.map_congr_left (g := id) ?_, List.map_id]
      intro c hc
      show (capCol c).1 = c
      have hcc := hcapcols c (by rw [h]; exact hc)
      rw [hcc]
  have hout2 : (etl_outliers (etl_datetime parse t)).2 = 0 := by
    unfold etl_outliers
    apply List.sum_eq_zero
    intro x hx
    simp only [List.mem_map] at hx
    obtain ⟨c, hc, rfl⟩ := hx
    show (capCol c).2 = 0
    rw [hcapcols c hc]
  constructor
  · show (⟨(etl_dedup t).2, (etl_impute (etl_datetime parse (etl_dedup t).1)).2,
      (etl_outliers (etl_impute (etl_datetime parse (etl_dedup t).1)).1).2⟩ : EtlStats) =
        ⟨0, 0, 0⟩
    rw [hdedup1, hdedup2, himp2, himp1, hout2]
  · show (etl_outliers (etl_impute (etl_datetime parse (etl_dedup t).1)).1).1.cols.map
      (fun c => (c.name, c.vals)) = t.cols.map (fun c => (c.name, c.vals))
    rw [hdedup1, himp1, hout1]
    unfold etl_datetime
    rw [List.map_map]
    apply List.map_congr_left
    intro c hc
    simp only [Function.comp]
    rw [convertCol_name, convertCol_vals_empty parse (hempty c hc), hempty c hc]

/-- Zero-row numeric-column table for the empty-table witness. -/
def wEmptyTable : Table := ⟨[⟨"N", Dtype.numeric, []⟩]⟩

theorem etl_empty_table_witness :
    wEmptyTable.WF ∧ wEmptyTable.nRows = 0 ∧
    ((perform_etl noParse wEmptyTable).2 = ⟨0, 0, 0⟩ ∧
     (perform_etl noParse wEmptyTable).1.cols.map (fun c => (c.name, c.vals)) =
       wEmptyTable.cols.map (fun c => (c.name, c.vals))) :=
  ⟨by decide, by decide, etl_empty_table noParse wEmptyTable (by decide) (by decide)⟩

theorem dupMaskAux_nodup (seen : List (List Val)) (rows : List (List Val))
    (hnd : rows.Nodup) (hdisj : ∀ r ∈ rows, r ∉ seen) :
    dupMaskAux seen rows = List.replicate rows.length true := by
  induction rows generalizing seen with
  | nil => rfl
  | cons r rs ih =>
    unfold dupMaskAux
    rw [if_neg (hdisj r (by simp))]
    rw [List.length_cons, List.replicate_succ]
    congr 1
    apply ih
    · exact (List.nodup_cons.mp hnd).2
    intro x hx
    simp only [List.mem_cons]
    rintro (rfl | hxs)
    · exact (List.nodup_cons.mp hnd).1 hx
    · exact hdisj x (by simp [hx]) hxs

theorem filterMask_replicate_true {α : Type} (as : List α) (n : ℕ) (h : as.length ≤ n) :
    filterMask (List.replicate n true) as = as := by
  induction as generalizing n with
  | nil =>
    cases n with
    | zero => rfl
    | succ n => rfl
  | cons a as ih =>
    cases n with
    | zero => simp at h
    | succ n =>
      rw [List.replicate_succ]
      show (if true then a :: filterMask (List.replicate n true) as
        else filterMask (List.replicate n true) as) = a :: as
      rw [if_pos rfl, ih n (by simpa using h)]

theorem etl_dedup_nodup {t : Table} (hwf : t.WF) (hnd : t.rowsOf.Nodup) :
    etl_dedup t = (t, 0) := by
  have hmask : dupMask t.rowsOf = List.replicate t.nRows true := by
    unfold dupMask
    rw [dupMaskAux_nodup [] t.rowsOf hnd (by intro r hr; simp)]
    congr 1
    simp [Table.rowsOf]
  have hcols : t.cols.map
      (fun c => { c with vals := filterMask (dupMask t.rowsOf) c.vals }) = t.cols := by
    rw [List.map_congr_left (g := id) ?_, List.map_id]
    intro c hc
    show ({ c with vals := filterMask (dupMask t.rowsOf) c.vals } : Col) = c
    rw [hmask, filterMask_replicate_true _ _ (le_of_eq (hwf c hc))]
  unfold etl_dedup
  simp only [hcols]
  show (t, t.nRows - t.nRows) = (t, 0)
  rw [Nat.sub_self]

theorem convertCol_no_na (parse : String → Option ℤ) {c : Col} (h : Val.na ∉ c.vals) :
    Val.na ∉ (convertCol parse c).vals := by
  unfold convertCol
  split_ifs with hcond
  · simp only [List.mem_map]
    rintro ⟨v, hv, hve⟩
    have hall := List.all_eq_true.mp hcond.2 v hv
    cases v with
    | str s =>
      cases hp : parse s with
      | none =>
        simp only [hp, Option.isSome_none] at hall
        exact Bool.false_ne_true hall
      | some z =>
        simp [convertVal, hp] at hve
    | na => exact h hv
    | num q => simp [convertVal] at hve
    | time z => simp [convertVal] at hve
  · exact h

/-- C2 (amended): re-running the Cleansing Engine reports
    `duplicates_removed = 0` and `missing_imputed = 0` on every well-formed
    table with pairwise-distinct rows and no missing cells — in particular
    on every cleaned output with those properties.  The round trip is NOT a
    fixed point in general: imputation (or capping) can make two surviving
    rows identical, and an all-missing numeric column stays missing, so the
    two additional hypotheses are exactly what the counterexample forces. -/
theorem etl_fixpoint_when_clean (parse : String → Option ℤ) (t : Table) (hwf : t.WF)
    (hnd : t.rowsOf.Nodup) (hna : ∀ c ∈ t.cols, Val.na ∉ c.vals) :
    (perform_etl parse t).2.duplicates_removed = 0 ∧
    (perform_etl parse t).2.missing_imputed = 0 := by
  have hd := etl_dedup_nodup hwf hnd
  constructor
  · show (etl_dedup t).2 = 0
    rw [hd]
  · show (etl_impute (etl_datetime parse (etl_dedup t).1)).2 = 0
    rw [hd]
    show (etl_impute (etl_datetime parse t)).2 = 0
    unfold etl_impute
    apply List.sum_eq_zero
    intro x hx
    simp only [List.mem_map] at hx
    obtain ⟨c, hc, rfl⟩ := hx
    unfold etl_datetime at hc
    simp only [List.mem_map] at hc
    obtain ⟨c0, hc0, rfl⟩ := hc
    have hzero : (convertCol parse c0).naCount = 0 := by
      rw [Col.naCount, List.count_eq_zero]
      exact convertCol_no_na parse (hna c0 hc0)
    simp [hzero]

/-- Clean two-row table for the fixed-point witness. -/
def wCleanTable : Table := ⟨[⟨"A", Dtype.numeric, [Val.num 1, Val.num 2]⟩]⟩

theorem etl_fixpoint_when_clean_witness :
    wCleanTable.WF ∧ wCleanTable.rowsOf.Nodup ∧ (∀ c ∈ wCleanTable.cols, Val.na ∉ c.vals) ∧
    ((perform_etl noParse wCleanTable).2.duplicates_removed = 0 ∧
     (perform_etl noParse wCleanTable).2.missing_imputed = 0) :=
  ⟨by decide, by decide, by decide,
   etl_fixpoint_when_clean noParse wCleanTable (by decide) (by decide) (by decide)⟩

/-- One-object heap for the frame-effect witness. -/
def wHeap : Heap := [⟨[⟨"X", Dtype.numeric, [Val.num 2]⟩]⟩]

theorem etl_preserves_caller_table_witness :
    0 < wHeap.length ∧
    (heapGet (perform_etl_heap noParse wHeap 0).1 0 = heapGet wHeap 0 ∧
     heapGet (perform_etl_heap noParse wHeap 0).1 (perform_etl_heap noParse wHeap 0).2.1 =
       (perform_etl noParse (heapGet wHeap 0)).1 ∧
     (perform_etl_heap noParse wHeap 0).2.2 = (perform_etl noParse (heapGet wHeap 0)).2) :=
  ⟨by decide, etl_preserves_caller_table noParse wHeap 0 (by decide)⟩

theorem momentQ_const {xs : List ℚ} {a : ℚ} {k : ℕ} (hk : 0 < k)
    (hall : ∀ x ∈ xs, x = a) (hne : xs ≠ []) : momentQ xs k = 0 := by
  have hrep : xs = List.replicate xs.length a := List.eq_replicate_iff.mpr ⟨rfl, hall⟩
  have hL : ((xs.length : ℕ) : ℚ) ≠ 0 := by
    have h1 : xs.length ≠ 0 := fun h => hne (List.length_eq_zero.mp h)
    exact_mod_cast h1
  unfold momentQ
  rw [hrep]
  simp only [List.map_replicate, List.sum_replicate, List.length_replicate, nsmul_eq_mul]
  rw [mul_div_cancel_left₀ _ hL, mul_div_cancel_left₀ _ hL, sub_self,
    zero_pow (Nat.pos_iff_ne_zero.mp hk)]

/-- A numeric column whose non-missing values are all equal: scipy's
    degenerate case for skewness and kurtosis. -/
def Col.ConstNums (c : Col) : Prop := ∀ x ∈ c.nums, ∀ y ∈ c.nums, x = y

instance (c : Col) : Decidable c.ConstNums :=
  decidable_of_iff (∀ x ∈ c.nums, ∀ y ∈ c.nums, x = y) Iff.rfl

theorem statRowOf_column (c : Col) : (statRowOf c).column = c.name := by
  unfold statRowOf
  split_ifs <;> rfl

theorem statRowOf_degenerate {c : Col} (hconst : c.ConstNums) :
    (statRowOf c).skewSgnSq = none ∧ (statRowOf c).kurtosis = none := by
  unfold statRowOf
  by_cases hne : c.nums = []
  · rw [if_pos hne]
    exact ⟨rfl, rfl⟩
  · rw [if_neg hne]
    obtain ⟨x, hx⟩ := List.exists_mem_of_ne_nil c.nums hne
    have hm2 : momentQ c.nums 2 = 0 :=
      momentQ_const (by norm_num) (fun y hy => hconst y hy x hx) hne
    constructor
    · show (if momentQ c.nums 2 = 0 then none
        else some ((if momentQ c.nums 3 < 0 then -1 else 1) *
          momentQ c.nums 3 ^ 2 / momentQ c.nums 2 ^ 3)) = none
      rw [if_pos hm2]
    · show (if momentQ c.nums 2 = 0 then none
        else some (momentQ c.nums 4 / momentQ c.nums 2 ^ 2 - 3)) = none
      rw [if_pos hm2]

/-- C8: the Statistics Engine is total over arbitrary tables: with no
    numeric columns it returns the explicit `none` signal (`return None` in
    the source — never an error and never an empty collection); with numeric
    columns it returns one statistics row per numeric column in column
    order (hence a non-empty list); and a degenerate numeric column — all
    values equal, or all missing — yields defined NaN sentinels for
    skewness and kurtosis instead of an exception. -/
theorem stats_engine_total (t : Table) :
    (generate_descriptive_stats t = none ↔ numericCols t = []) ∧
    (∀ l, generate_descriptive_stats t = some l →
      (l ≠ [] ∧ l.map StatRow.column = (numericCols t).map Col.name ∧
       ∀ i, (hi : i < l.length) → (hn : i < (numericCols t).length) →
         Col.ConstNums ((numericCols t).get ⟨i, hn⟩) →
         (l.get ⟨i, hi⟩).skewSgnSq = none ∧ (l.get ⟨i, hi⟩).kurtosis = none)) := by
  unfold generate_descriptive_stats
  by_cases h0 : (numericCols t).length = 0
  · rw [if_pos h0]
    refine ⟨⟨fun _ => List.length_eq_zero.mp h0, fun _ => rfl⟩, ?_⟩
    intro l hl
    cases hl
  · rw [if_neg h0]
    constructor
    · constructor
      · intro h
        cases h
      · intro h
        rw [h] at h0
        simp at h0
    intro l hl
    have hleq : l = (numericCols t).map statRowOf := by
      cases hl
      rfl
    subst hleq
    refine ⟨?_, ?_, ?_⟩
    · intro hnil
      exact h0 (by simpa using congrArg List.length hnil)
    · rw [List.map_map]
      apply List.map_congr_left
      intro c hc
      exact statRowOf_column c
    · intro i hi hn hconst
      rw [List.get_map]
      exact statRowOf_degenerate hconst

/-- Constant-column table for the statistics witness. -/
def wConstTable : Table := ⟨[⟨"K", Dtype.numeric, [Val.num 5, Val.num 5, Val.num 5]⟩]⟩

theorem stats_engine_total_witness :
    generate_descriptive_stats wConstTable ≠ none ∧
    (∀ l, generate_descriptive_stats wConstTable = some l → l ≠ []) := by
  have h := stats_engine_total wConstTable
  refine ⟨?_, ?_⟩
  · intro hn
    exact absurd (h.1.mp hn) (by decide)
  · intro l hl
    exact (h.2 l hl).1

theorem filterMask_length_le {α : Type} (bs : List Bool) (as : List α) :
    (filterMask bs as).length ≤ as.length := by
  induction bs generalizing as with
  | nil => cases as <;> simp [filterMask]
  | cons b bs ih =>
    cases as with
    | nil => simp [filterMask]
    | cons a as =>
      show (if b then a :: filterMask bs as else filterMask bs as).length ≤ as.length + 1
      split_ifs
      · simpa using Nat.succ_le_succ (ih as)
      · exact le_trans (ih as) (Nat.le_succ _)

theorem convertCol_vals_length (parse : String → Option ℤ) (c : Col) :
    (convertCol parse c).vals.length = c.vals.length := by
  unfold convertCol
  split_ifs <;> simp

theorem convertCol_dtype_numeric_iff (parse : String → Option ℤ) (c : Col) :
    (convertCol parse c).dtype = Dtype.numeric ↔ c.dtype = Dtype.numeric := by
  unfold convertCol
  split_ifs with h
  · simp [h.1]
  · exact Iff.rfl

theorem imputeCol_vals_length (c : Col) : (imputeCol c).vals.length = c.vals.length := by
  unfold imputeCol
  repeat' split
  all_goals simp

theorem imputeCol_dtype (c : Col) : (imputeCol c).dtype = c.dtype := by
  unfold imputeCol
  repeat' split
  all_goals simp

theorem imputeCol_name (c : Col) : (imputeCol c).name = c.name := by
  unfold imputeCol
  repeat' split
  all_goals simp

theorem capCol_snd_le (c : Col) : (capCol c).2 ≤ c.vals.length := by
  unfold capCol
  repeat' split
  · exact le_trans (List.length_filter_le _ _) (List.length_filterMap_le _ _)
  · exact Nat.zero_le _
  · exact Nat.zero_le _

theorem capCol_snd_nonnumeric {c : Col} (h : ¬ c.dtype = Dtype.numeric) : (capCol c).2 = 0 := by
  unfold capCol
  rw [if_neg h]

theorem sum_map_ite_const {α : Type} (l : List α) (p : α → Bool) (K : ℕ) :
    (l.map (fun a => if p a then K else 0)).sum = (l.countP p) * K := by
  induction l with
  | nil => simp
  | cons a l ih =>
    by_cases h : p a = true
    · simp [List.countP_cons, h, ih, Nat.add_mul]
      omega
    · simp [List.countP_cons, h, ih]

theorem etl_impute_snd_le (t2 : Table) (K : ℕ) (hlen : ∀ c ∈ t2.cols, c.vals.length ≤ K) :
    (etl_impute t2).2 ≤ t2.cols.length * K := by
  unfold etl_impute
  calc (t2.cols.map fun c => if 0 < c.naCount then c.naCount else 0).sum
      ≤ (t2.cols.map fun _ => K).sum := by
        apply List.sum_le_sum
        intro c hc
        split_ifs
        · exact le_trans (List.count_le_length _ _) (hlen c hc)
        · exact Nat.zero_le K
    _ = t2.cols.length * K := by
        rw [List.map_const']
        simp [List.sum_replicate, smul_eq_mul]

theorem etl_outliers_snd_le (t3 : Table) (K : ℕ) (hlen : ∀ c ∈ t3.cols, c.vals.length ≤ K) :
    (etl_outliers t3).2 ≤ (t3.cols.countP (fun c => decide (c.dtype = Dtype.numeric))) * K := by
  unfold etl_outliers
  calc (t3.cols.map fun c => (capCol c).2).sum
      ≤ (t3.cols.map fun c => if decide (c.dtype = Dtype.numeric) then K else 0).sum := by
        apply List.sum_le_sum
        intro c hc
        by_cases h : c.dtype = Dtype.numeric
        · rw [if_pos (by simp [h])]
          exact le_trans (capCol_snd_le c) (hlen c hc)
        · rw [capCol_snd_nonnumeric h]
          exact Nat.zero_le _
    _ = _ := sum_map_ite_const t3.cols _ K

theorem penalty_le {a b : ℕ} {w : ℚ} (hw : 0 ≤ w) (hb : 0 < b) (hab : a ≤ b) :
    (a : ℚ) / (b : ℚ) * w ≤ w := by
  have h1 : (a : ℚ) / (b : ℚ) ≤ 1 := by
    rw [div_le_one (by exact_mod_cast hb : (0:ℚ) < (b:ℚ))]
    exact_mod_cast hab
  calc (a : ℚ) / (b : ℚ) * w ≤ 1 * w := mul_le_mul_of_nonneg_right h1 hw
    _ = w := one_mul w

/-- C10: for every non-empty raw table, the metrics produced by the
    Cleansing Engine on that same table keep each health-score penalty
    within its weight — `missing_imputed` (counted after deduplication)
    never exceeds the raw cell count, `duplicates_removed` never exceeds the
    raw row count, and `outliers_handled` never exceeds the raw numeric cell
    count — so 100 minus the penalty sum is already non-negative and the
    lower bound of the final clamp is never the binding bound. -/
theorem penalties_bounded (parse : String → Option ℤ) (t : Table) (hwf : t.WF)
    (hr : 0 < t.nRows) (hc : t.cols ≠ []) :
    missingPenalty t (perform_etl parse t).2 ≤ 40 ∧
    duplicatePenalty t (perform_etl parse t).2 ≤ 30 ∧
    outlierPenalty t (perform_etl parse t).2 ≤ 30 ∧
    0 ≤ 100 - (missingPenalty t (perform_etl parse t).2 +
      duplicatePenalty t (perform_etl parse t).2 +
      outlierPenalty t (perform_etl parse t).2) := by
  have hclen : 0 < t.cols.length := List.length_pos.mpr hc
  have hmi : (perform_etl parse t).2.missing_imputed =
      (etl_impute (etl_datetime parse (etl_dedup t).1)).2 := rfl
  have hoh : (perform_etl parse t).2.outliers_handled =
      (etl_outliers (etl_impute (etl_datetime parse (etl_dedup t).1)).1).2 := rfl
  have hdr : (perform_etl parse t).2.duplicates_removed = (etl_dedup t).2 := rfl
  have hF1 : ∀ c1 ∈ (etl_dedup t).1.cols, c1.vals.length ≤ t.nRows := by
    intro c1 hc1
    unfold etl_dedup at hc1
    simp only [List.mem_map] at hc1
    obtain ⟨c0, hc0, rfl⟩ := hc1
    exact le_trans (filterMask_length_le _ _) (le_of_eq (hwf c0 hc0))
  have hF2 : ∀ c2 ∈ (etl_datetime parse (etl_dedup t).1).cols, c2.vals.length ≤ t.nRows := by
    intro c2 hc2
    unfold etl_datetime at hc2
    simp only [List.mem_map] at hc2
    obtain ⟨c1, hc1, rfl⟩ := hc2
    rw [convertCol_vals_length]
    exact hF1 c1 hc1
  have hF3 : (etl_datetime parse (etl_dedup t).1).cols.length = t.cols.length := by
    unfold etl_datetime etl_dedup
    simp
  have hF4 : (etl_impute (etl_datetime parse (etl_dedup t).1)).2 ≤
      t.nRows * t.cols.length := by
    calc (etl_impute (etl_datetime parse (etl_dedup t).1)).2
        ≤ (etl_datetime parse (etl_dedup t).1).cols.length * t.nRows :=
          etl_impute_snd_le _ _ hF2
      _ = t.nRows * t.cols.length := by rw [hF3, Nat.mul_comm]
  have hF5 : ∀ c3 ∈ (etl_impute (etl_datetime parse (etl_dedup t).1)).1.cols,
      c3.vals.length ≤ t.nRows := by
    intro c3 hc3
    unfold etl_impute at hc3
    simp only [List.mem_map] at hc3
    obtain ⟨c2, hc2, rfl⟩ := hc3
    rw [imputeCol_vals_length]
    exact hF2 c2 hc2
  have hF6 : (etl_impute (etl_datetime parse (etl_dedup t).1)).1.cols.countP
      (fun c => decide (c.dtype = Dtype.numeric)) = (numericCols t).length := by
    show ((etl_datetime parse (etl_dedup t).1).cols.map imputeCol).countP
      (fun c => decide (c.dtype = Dtype.numeric)) = (numericCols t).length
    rw [List.countP_map]
    unfold etl_datetime etl_dedup
    simp only [List.countP_map]
    rw [List.countP_congr ?_]
    · show t.cols.countP (fun c => decide (c.dtype = Dtype.numeric)) = (numericCols t).length
      unfold numericCols
      rw [List.countP_eq_length_filter]
    · intro c0 hc0
      show (decide ((imputeCol (convertCol parse
        { c0 with vals := filterMask (dupMask t.rowsOf) c0.vals })).dtype = Dtype.numeric)) = true ↔
        (decide (c0.dtype = Dtype.numeric)) = true
      rw [imputeCol_dtype]
      simp only [decide_eq_true_eq]
      exact convertCol_dtype_numeric_iff parse _
  have hF7 : (etl_outliers (etl_impute (etl_datetime parse (etl_dedup t).1)).1).2 ≤
      t.nRows * (numericCols t).length := by
    calc (etl_outliers (etl_impute (etl_datetime parse (etl_dedup t).1)).1).2
        ≤ ((etl_impute (etl_datetime parse (etl_dedup t).1)).1.cols.countP
            (fun c => decide (c.dtype = Dtype.numeric))) * t.nRows :=
          etl_outliers_snd_le _ _ hF5
      _ = t.nRows * (numericCols t).length := by rw [hF6, Nat.mul_comm]
  have hF8 : (etl_dedup t).2 ≤ t.nRows := Nat.sub_le _ _
  have hmp : missingPenalty t (perform_etl parse t).2 ≤ 40 := by
    unfold missingPenalty
    rw [hmi]
    exact penalty_le (by norm_num) (Nat.mul_pos hr hclen) hF4
  have hdp : duplicatePenalty t (perform_etl parse t).2 ≤ 30 := by
    unfold duplicatePenalty
    rw [hdr]
    exact penalty_le (by norm_num) hr hF8
  have hop : outlierPenalty t (perform_etl parse t).2 ≤ 30 := by
    unfold outlierPenalty
    split_ifs with h
    · rw [hoh]
      exact penalty_le (by norm_num) h hF7
    · norm_num
  exact ⟨hmp, hdp, hop, by linarith⟩

/-- Two-row, one-column table for the penalty-bound witness. -/
def wPenTable : Table := ⟨[⟨"P", Dtype.numeric, [Val.num 1, Val.num 9]⟩]⟩

theorem penalties_bounded_witness :
    wPenTable.WF ∧ 0 < wPenTable.nRows ∧ wPenTable.cols ≠ [] ∧
    (missingPenalty wPenTable (perform_etl noParse wPenTable).2 ≤ 40 ∧
     duplicatePenalty wPenTable (perform_etl noParse wPenTable).2 ≤ 30 ∧
     outlierPenalty wPenTable (perform_etl noParse wPenTable).2 ≤ 30 ∧
     0 ≤ 100 - (missingPenalty wPenTable (perform_etl noParse wPenTable).2 +
       duplicatePenalty wPenTable (perform_etl noParse wPenTable).2 +
       outlierPenalty wPenTable (perform_etl noParse wPenTable).2)) :=
  ⟨by decide, by decide, by decide,
   penalties_bounded noParse wPenTable (by decide) (by decide) (by decide)⟩

theorem sortQ_sorted (l : List ℚ) : (sortQ l).Sorted (· ≤ ·) :=
  List.sorted_insertionSort _ l

theorem sortQ_length (l : List ℚ) : (sortQ l).length = l.length :=
  (List.perm_insertionSort _ l).length_eq

theorem sorted_getD_mono {s : List ℚ} (hs : s.Sorted (· ≤ ·)) {i j : ℕ} (hij : i ≤ j)
    (hj : j < s.length) (d1 d2 : ℚ) : s.getD i d1 ≤ s.getD j d2 := by
  have hi : i < s.length := lt_of_le_of_lt hij hj
  rw [List.getD_eq_getElem s d1 hi, List.getD_eq_getElem s d2 hj]
  rcases Nat.lt_or_ge i j with h | h
  · have h2 := List.Sorted.rel_get_of_lt hs (a := ⟨i, hi⟩) (b := ⟨j, hj⟩) (Fin.mk_lt_mk.mpr h)
    simpa using h2
  · have hij2 : i = j := le_antisymm hij h
    subst hij2
    exact le_refl _

theorem getD_succ_ge {s : List ℚ} (hs : s.Sorted (· ≤ ·)) {i : ℕ} (hi : i < s.length) :
    s.getD i 0 ≤ s.getD (i + 1) (s.getD i 0) := by
  by_cases h : i + 1 < s.length
  · exact sorted_getD_mono hs (Nat.le_succ i) h 0 (s.getD i 0)
  · have h2 : s.length ≤ i + 1 := by omega
    rw [List.getD_eq_default _ _ h2]

theorem interpAt_mono {s : List ℚ} (hs : s.Sorted (· ≤ ·)) {h1 h2 : ℚ}
    (h1nn : 0 ≤ h1) (h12 : h1 ≤ h2) (h2le : h2 ≤ (s.length : ℚ) - 1) :
    interpAt s h1 ≤ interpAt s h2 := by
  have h2nn : 0 ≤ h2 := le_trans h1nn h12
  have hf1nn : 0 ≤ ⌊h1⌋ := Int.floor_nonneg.mpr h1nn
  have hf2nn : 0 ≤ ⌊h2⌋ := Int.floor_nonneg.mpr h2nn
  have hc1 : (((⌊h1⌋).toNat : ℕ) : ℚ) = ((⌊h1⌋ : ℤ) : ℚ) := by
    exact_mod_cast Int.toNat_of_nonneg hf1nn
  have hc2 : (((⌊h2⌋).toNat : ℕ) : ℚ) = ((⌊h2⌋ : ℤ) : ℚ) := by
    exact_mod_cast Int.toNat_of_nonneg hf2nn
  have hg1nn : 0 ≤ h1 - (((⌊h1⌋).toNat : ℕ) : ℚ) := by
    rw [hc1]
    have := Int.floor_le h1
    linarith
  have hg2nn : 0 ≤ h2 - (((⌊h2⌋).toNat : ℕ) : ℚ) := by
    rw [hc2]
    have := Int.floor_le h2
    linarith
  have hg1lt : h1 - (((⌊h1⌋).toNat : ℕ) : ℚ) < 1 := by
    rw [hc1]
    have := Int.lt_floor_add_one h1
    linarith
  have hn1q : (1:ℚ) ≤ (s.length : ℚ) := by linarith
  have hnpos : 1 ≤ s.length := by exact_mod_cast hn1q
  have hfloor2 : ⌊h2⌋ ≤ (s.length : ℤ) - 1 := by
    have h3 := Int.floor_le_floor h2le
    have h4 : ⌊(s.length : ℚ) - 1⌋ = (s.length : ℤ) - 1 := by
      rw [show ((s.length : ℚ) - 1) = (((s.length : ℤ) - 1 : ℤ) : ℚ) from by push_cast; ring,
        Int.floor_intCast]
    rw [h4] at h3
    exact h3
  have hi2lt : (⌊h2⌋).toNat < s.length := by omega
  have hi1lt : (⌊h1⌋).toNat < s.length := by
    have := Int.floor_le_floor h12
    omega
  have hi12 : (⌊h1⌋).toNat ≤ (⌊h2⌋).toNat := by
    have := Int.floor_le_floor h12
    omega
  rcases Nat.lt_or_ge (⌊h1⌋).toNat (⌊h2⌋).toNat with hlt | hge
  · -- strictly smaller index: chain through s[i1+1] ≤ s[i2]
    have hd1 : 0 ≤ s.getD ((⌊h1⌋).toNat + 1) (s.getD (⌊h1⌋).toNat 0) - s.getD (⌊h1⌋).toNat 0 :=
      sub_nonneg.mpr (getD_succ_ge hs hi1lt)
    have hd2 : 0 ≤ s.getD ((⌊h2⌋).toNat + 1) (s.getD (⌊h2⌋).toNat 0) - s.getD (⌊h2⌋).toNat 0 :=
      sub_nonneg.mpr (getD_succ_ge hs hi2lt)
    have hstep : s.getD ((⌊h1⌋).toNat + 1) (s.getD (⌊h1⌋).toNat 0) ≤ s.getD (⌊h2⌋).toNat 0 :=
      sorted_getD_mono hs (by omega) hi2lt _ _
    unfold interpAt
    nlinarith [hd1, hd2, hg1lt, hg1nn, hg2nn, hstep]
  · -- same index
    have heq : (⌊h1⌋).toNat = (⌊h2⌋).toNat := le_antisymm hi12 hge
    unfold interpAt
    rw [heq]
    have hd2 : 0 ≤ s.getD ((⌊h2⌋).toNat + 1) (s.getD (⌊h2⌋).toNat 0) - s.getD (⌊h2⌋).toNat 0 :=
      sub_nonneg.mpr (getD_succ_ge hs hi2lt)
    have hgg : h1 - (((⌊h2⌋).toNat : ℕ) : ℚ) ≤ h2 - (((⌊h2⌋).toNat : ℕ) : ℚ) := by linarith
    nlinarith [hd2, hgg]

theorem quantileQ_mono {l : List ℚ} {p1 p2 : ℚ} (hp0 : 0 ≤ p1) (hp12 : p1 ≤ p2)
    (hp1 : p2 ≤ 1) {a b : ℚ} (ha : quantileQ l p1 = some a) (hb : quantileQ l p2 = some b) :
    a ≤ b := by
  unfold quantileQ at ha hb
  by_cases h0 : (sortQ l).length = 0
  · rw [if_pos h0] at ha
    cases ha
  · rw [if_neg h0] at ha hb
    injection ha with ha
    injection hb with hb
    subst ha
    subst hb
    have hn1q : (1:ℚ) ≤ ((sortQ l).length : ℚ) := by
      have : 1 ≤ (sortQ l).length := Nat.one_le_iff_ne_zero.mpr h0
      exact_mod_cast this
    apply interpAt_mono (sortQ_sorted l)
    · exact mul_nonneg hp0 (by linarith)
    · apply mul_le_mul_of_nonneg_right hp12
      linarith
    · calc p2 * (((sortQ l).length : ℚ) - 1) ≤ 1 * (((sortQ l).length : ℚ) - 1) :=
          mul_le_mul_of_nonneg_right hp1 (by linarith)
      _ = ((sortQ l).length : ℚ) - 1 := one_mul _

theorem iqrBounds_le {c : Col} {lb ub : ℚ} (h : iqrBounds c = some (lb, ub)) : lb ≤ ub := by
  unfold iqrBounds at h
  cases hq1 : quantileQ c.nums (1/4) with
  | none =>
    rw [hq1] at h
    cases h
  | some q1 =>
    cases hq3 : quantileQ c.nums (3/4) with
    | none =>
      rw [hq1, hq3] at h
      cases h
    | some q3 =>
      rw [hq1, hq3] at h
      have h13 : q1 ≤ q3 := quantileQ_mono (by norm_num) (by norm_num) (by norm_num) hq1 hq3
      injection h with h
      rw [Prod.mk.injEq] at h
      obtain ⟨hlb, hub⟩ := h
      subst hlb
      subst hub
      linarith

theorem capVal_bounds {lb ub : ℚ} (hlu : lb ≤ ub) (v : Val) {q : ℚ}
    (h : capVal lb ub v = Val.num q) : lb ≤ q ∧ q ≤ ub := by
  cases v with
  | num x =>
    simp only [capVal] at h
    injection h with h
    subst h
    constructor <;> split_ifs <;> linarith
  | str s => simp [capVal] at h
  | time z => simp [capVal] at h
  | na => simp [capVal] at h

theorem capVal_na_of_na {lb ub : ℚ} {v : Val} (h : capVal lb ub v = Val.na) : v = Val.na := by
  cases v with
  | num x => simp only [capVal] at h; cases h
  | str s => simp [capVal] at h
  | time z => simp [capVal] at h
  | na => rfl

theorem capCol_no_na {c : Col} (h : Val.na ∉ c.vals) : Val.na ∉ (capCol c).1.vals := by
  unfold capCol
  split_ifs with hdt
  · cases hb : iqrBounds c with
    | none => exact h
    | some p =>
      cases p with
      | mk lb ub =>
        simp only
        intro hmem
        simp only [List.mem_map] at hmem
        obtain ⟨v, hv, hve⟩ := hmem
        rw [capVal_na_of_na hve] at hv
        exact h hv
  · exact h

theorem medianQ_isSome {l : List ℚ} (h : l ≠ []) : ∃ m, medianQ l = some m := by
  unfold medianQ
  have h2 : ¬ (sortQ l).length = 0 := by
    rw [sortQ_length]
    simpa using fun h3 => h (List.length_eq_zero.mp h3)
  rw [if_neg h2]
  split_ifs <;> exact ⟨_, rfl⟩

theorem imputeCol_numeric_no_na {c : Col} (hdt : c.dtype = Dtype.numeric)
    (hnums : c.nums ≠ []) : Val.na ∉ (imputeCol c).vals := by
  unfold imputeCol
  by_cases h0 : 0 < c.naCount
  · rw [if_pos h0, if_pos hdt]
    obtain ⟨m, hm⟩ := medianQ_isSome hnums
    rw [hm]
    simp only [List.mem_map]
    rintro ⟨v, hv, hve⟩
    by_cases hvna : v = Val.na
    · rw [if_pos hvna] at hve
      cases hve
    · rw [if_neg hvna] at hve
      exact hvna hve
  · rw [if_neg h0]
    intro hna
    apply h0
    rw [Col.naCount]
    exact List.count_pos_iff.mpr hna

theorem imputeCol_numeric_allmissing {c : Col} (hdt : c.dtype = Dtype.numeric)
    (hn : c.nums = []) : imputeCol c = c := by
  unfold imputeCol
  by_cases h0 : 0 < c.naCount
  · rw [if_pos h0, if_pos hdt]
    have hmed : medianQ c.nums = none := by
      rw [hn]
      rfl
    rw [hmed]
  · rw [if_neg h0]

theorem imputeCol_nums_ne_nil {c : Col} (hdt : c.dtype = Dtype.numeric)
    (h : (imputeCol c).nums ≠ []) : c.nums ≠ [] := by
  intro hn
  exact h (by rw [imputeCol_numeric_allmissing hdt hn, hn])

/-- C3 (amended): in every table produced by the Cleansing Engine, a column
    classified Numeric that retains at least one (numeric) value contains no
    missing value after imputation and capping, and every numeric value of
    an output numeric column lies within the `[Q1 - 1.5*IQR, Q3 + 1.5*IQR]`
    fence computed on that column during cleansing (immediately after
    imputation).  The claim as stated fails only for a numeric column whose
    values are ALL missing: it keeps its missing values, which forces the
    "at least one non-missing value" restriction. -/
theorem cleaned_numeric_in_bounds (parse : String → Option ℤ) (t : Table) :
    (perform_etl parse t).1.cols =
      (etl_impute (etl_datetime parse (etl_dedup t).1)).1.cols.map (fun c => (capCol c).1) ∧
    ∀ c ∈ (etl_impute (etl_datetime parse (etl_dedup t).1)).1.cols,
      c.dtype = Dtype.numeric →
      ((c.nums ≠ [] → Val.na ∉ (capCol c).1.vals) ∧
       (∀ lb ub, iqrBounds c = some (lb, ub) →
         ∀ q, Val.num q ∈ (capCol c).1.vals → lb ≤ q ∧ q ≤ ub)) := by
  constructor
  · rfl
  · intro c hc hdt
    constructor
    · intro hne
      apply capCol_no_na
      unfold etl_impute at hc
      simp only [List.mem_map] at hc
      obtain ⟨c2, hc2, rfl⟩ := hc
      have hdt2 : c2.dtype = Dtype.numeric := by
        rw [imputeCol_dtype] at hdt
        exact hdt
      exact imputeCol_numeric_no_na hdt2 (imputeCol_nums_ne_nil hdt2 hne)
    · intro lb ub hb q hq
      have hlu : lb ≤ ub := iqrBounds_le hb
      unfold capCol at hq
      rw [if_pos hdt, hb] at hq
      simp only [List.mem_map] at hq
      obtain ⟨v, hv, hve⟩ := hq
      exact capVal_bounds hlu v hve

/-- Witness table: B = [1, 2, 3, 100], four distinct rows, no missing. -/
def wBoundsTable : Table :=
  ⟨[⟨"B", Dtype.numeric, [Val.num 1, Val.num 2, Val.num 3, Val.num 100]⟩]⟩

theorem cleaned_numeric_in_bounds_witness :
    ((⟨"B", Dtype.numeric, [Val.num 1, Val.num 2, Val.num 3, Val.num 100]⟩ : Col) ∈
      (etl_impute (etl_datetime noParse (etl_dedup wBoundsTable).1)).1.cols) ∧
    Val.na ∉ (capCol ⟨"B", Dtype.numeric,
      [Val.num 1, Val.num 2, Val.num 3, Val.num 100]⟩).1.vals :=
  ⟨by decide,
   ((cleaned_numeric_in_bounds noParse wBoundsTable).2 _ (by decide) (by decide)).1 (by decide)⟩

theorem lexLt_asymm (a b : List Char) (h : lexLt a b = true) : lexLt b a = false := by
  induction a generalizing b with
  | nil =>
    cases b with
    | nil => simp [lexLt] at h
    | cons y ys => rfl
  | cons x xs ih =>
    cases b with
    | nil => simp [lexLt] at h
    | cons y ys =>
      simp only [lexLt] at h ⊢
      by_cases h1 : x.toNat < y.toNat
      · rw [if_neg (by omega : ¬ y.toNat < x.toNat), if_pos h1]
      · by_cases h2 : y.toNat < x.toNat
        · rw [if_neg h1, if_pos h2] at h
          cases h
        · rw [if_neg h1, if_neg h2] at h
          rw [if_neg h2, if_neg h1]
          exact ih ys h

theorem lexLt_connect (a b c : List Char) (h1 : lexLt c a = true) (h2 : lexLt b a = false) :
    lexLt c b = true := by
  induction a generalizing b c with
  | nil =>
    cases c with
    | nil => simp [lexLt] at h1
    | cons z zs => simp [lexLt] at h1
  | cons x xs ih =>
    cases c with
    | nil =>
      cases b with
      | nil => simp [lexLt] at h2
      | cons y ys => rfl
    | cons z zs =>
      cases b with
      | nil => simp [lexLt] at h2
      | cons y ys =>
        simp only [lexLt] at h1 h2 ⊢
        by_cases hyx : y.toNat < x.toNat
        · rw [if_pos hyx] at h2
          cases h2
        · by_cases hzx : z.toNat < x.toNat
          · rw [if_pos (by omega : z.toNat < y.toNat)]
          · by_cases hxz : x.toNat < z.toNat
            · rw [if_neg hzx, if_pos hxz] at h1
              cases h1
            · rw [if_neg hzx, if_neg hxz] at h1
              by_cases hxy : x.toNat < y.toNat
              · rw [if_pos (by omega : z.toNat < y.toNat)]
              · rw [if_neg hyx, if_neg hxy] at h2
                rw [if_neg (by omega : ¬ z.toNat < y.toNat),
                  if_neg (by omega : ¬ y.toNat < z.toNat)]
                exact ih ys zs h1 h2

theorem strLe_total (a b : String) : strLe a b = true ∨ strLe b a = true := by
  unfold strLe
  by_cases h : lexLt b.data a.data = true
  · right
    rw [lexLt_asymm _ _ h]
    rfl
  · left
    rw [Bool.not_eq_true] at h
    rw [h]
    rfl

theorem strLe_trans (a b c : String) (h1 : strLe a b = true) (h2 : strLe b c = true) :
    strLe a c = true := by
  unfold strLe at h1 h2 ⊢
  rw [Bool.not_eq_true'] at h1 h2 ⊢
  by_contra hne
  rw [Bool.not_eq_false] at hne
  have h3 := lexLt_connect a.data b.data c.data hne h1
  rw [h2] at h3
  cases h3

theorem intLe_total (a b : ℤ) : intLe a b = true ∨ intLe b a = true := by
  unfold intLe
  rcases le_total a b with h | h
  · left
    exact decide_eq_true h
  · right
    exact decide_eq_true h

theorem intLe_trans (a b c : ℤ) (h1 : intLe a b = true) (h2 : intLe b c = true) :
    intLe a c = true := by
  unfold intLe at h1 h2 ⊢
  exact decide_eq_true (le_trans (of_decide_eq_true h1) (of_decide_eq_true h2))

theorem minListBy_mem {α : Type} (le : α → α → Bool) (l : List α) {m : α}
    (h : minListBy le l = some m) : m ∈ l := by
  induction l generalizing m with
  | nil => cases h
  | cons a as ih =>
    rw [minListBy] at h
    cases hm : minListBy le as with
    | none =>
      rw [hm] at h
      injection h with h
      subst h
      exact List.mem_cons_self _ _
    | some m0 =>
      rw [hm] at h
      injection h with h
      split_ifs at h
      · subst h
        exact List.mem_cons_self _ _
      · subst h
        exact List.mem_cons_of_mem _ (ih hm)

theorem minListBy_le {α : Type} {le : α → α → Bool}
    (htot : ∀ a b, le a b = true ∨ le b a = true)
    (htr : ∀ a b c, le a b = true → le b c = true → le a c = true)
    (l : List α) {m : α} (h : minListBy le l = some m) :
    ∀ y ∈ l, le m y = true := by
  induction l generalizing m with
  | nil => cases h
  | cons a as ih =>
    rw [minListBy] at h
    cases hm : minListBy le as with
    | none =>
      rw [hm] at h
      injection h with h
      subst h
      intro y hy
      cases as with
      | nil =>
        rw [List.mem_singleton] at hy
        subst hy
        rcases htot y y with h2 | h2 <;> exact h2
      | cons b bs =>
        rw [minListBy] at hm
        cases hmm : minListBy le bs <;> rw [hmm] at hm <;> cases hm
    | some m0 =>
      rw [hm] at h
      injection h with h
      intro y hy
      rcases List.mem_cons.mp hy with rfl | hmem
      · split_ifs at h with hle
        · subst h
          rcases htot y y with h2 | h2 <;> exact h2
        · subst h
          rcases htot m0 y with h2 | h2
          · exact h2
          · exact absurd h2 hle
      · split_ifs at h with hle
        · subst h
          exact htr _ m0 y hle (ih hm y hmem)
        · subst h
          exact ih hm y hmem

theorem le_foldr_max (l : List ℕ) {x : ℕ} (h : x ∈ l) : x ≤ l.foldr max 0 := by
  induction l with
  | nil => cases h
  | cons a as ih =>
    rcases List.mem_cons.mp h with rfl | h2
    · exact le_max_left _ _
    · exact le_trans (ih h2) (le_max_right _ _)

theorem foldr_max_mem (l : List ℕ) (h : l ≠ []) : l.foldr max 0 ∈ l ∨ l.foldr max 0 = 0 := by
  induction l with
  | nil => exact absurd rfl h
  | cons a as ih =>
    cases has : as with
    | nil =>
      left
      simp
    | cons b bs =>
      subst has
      rcases ih (by simp) with h2 | h2
      · rcases le_total a ((b :: bs).foldr max 0) with hle | hle
        · left
          rw [List.foldr_cons, max_eq_right hle]
          exact List.mem_cons_of_mem _ h2
        · left
          rw [List.foldr_cons, max_eq_left hle]
          exact List.mem_cons_self _ _
      · left
        rw [List.foldr_cons, h2, Nat.max_zero]
        exact List.mem_cons_self _ _

theorem modeMin_isSome {α : Type} [DecidableEq α] (le : α → α → Bool) {l : List α}
    (h : l ≠ []) : ∃ m, modeMin le l = some m := by
  unfold modeMin
  obtain ⟨a, ha⟩ := List.exists_mem_of_ne_nil l h
  have hle2 : l.count a ≤ (l.map fun a => l.count a).foldr max 0 :=
    le_foldr_max _ (List.mem_map_of_mem _ ha)
  have hpos : 0 < (l.map fun a => l.count a).foldr max 0 :=
    lt_of_lt_of_le (List.count_pos_iff.mpr ha) hle2
  have hattain : (l.map fun a => l.count a).foldr max 0 ∈ l.map fun a => l.count a := by
    rcases foldr_max_mem (l.map fun a => l.count a) (by simpa using h) with h2 | h2
    · exact h2
    · omega
  rw [List.mem_map] at hattain
  obtain ⟨y, hy, hyc⟩ := hattain
  have hfil : y ∈ l.filter
      (fun a => decide (l.count a = (l.map fun a => l.count a).foldr max 0)) := by
    rw [List.mem_filter]
    exact ⟨hy, decide_eq_true hyc⟩
  cases hfl : l.filter
      (fun a => decide (l.count a = (l.map fun a => l.count a).foldr max 0)) with
  | nil =>
    rw [hfl] at hfil
    cases hfil
  | cons b bs =>
    cases hbb : minListBy le bs with
    | none => exact ⟨b, by rw [minListBy, hbb]⟩
    | some m0 => exact ⟨if le b m0 then b else m0, by rw [minListBy, hbb]⟩

theorem modeMin_spec {α : Type} [DecidableEq α] {le : α → α → Bool}
    (htot : ∀ a b, le a b = true ∨ le b a = true)
    (htr : ∀ a b c, le a b = true → le b c = true → le a c = true)
    (l : List α) {m : α} (h : modeMin le l = some m) :
    m ∈ l ∧ (∀ y ∈ l, l.count y ≤ l.count m) ∧
    (∀ y ∈ l, l.count y = l.count m → le m y = true) := by
  unfold modeMin at h
  have hmem := minListBy_mem le _ h
  rw [List.mem_filter] at hmem
  obtain ⟨hml, hmc⟩ := hmem
  have hmcount : l.count m = (l.map fun a => l.count a).foldr max 0 := of_decide_eq_true hmc
  refine ⟨hml, ?_, ?_⟩
  · intro y hy
    rw [hmcount]
    exact le_foldr_max _ (List.mem_map_of_mem _ hy)
  · intro y hy hcnt
    apply minListBy_le htot htr _ h
    rw [List.mem_filter]
    refine ⟨hy, decide_eq_true ?_⟩
    rw [hcnt, hmcount]

/-- C6 (amended): during imputation, a Categorical (object) or Temporal
    (datetime) column with missing cells and at least one non-missing value
    is filled with `mode()[0]`, which is the SMALLEST most-frequent value in
    value-sort order — pandas returns the mode candidates sorted ascending;
    for strings this is Python's code-point lexicographic order, for
    timestamps the chronological order — and not the first candidate
    encountered in row order. -/
theorem impute_mode_fill (c : Col) (hna : 0 < c.naCount) :
    (c.dtype = Dtype.object → c.strs ≠ [] →
      ∃ m, (imputeCol c).vals = c.vals.map (fun v => if v = Val.na then Val.str m else v) ∧
        m ∈ c.strs ∧ (∀ y ∈ c.strs, c.strs.count y ≤ c.strs.count m) ∧
        (∀ y ∈ c.strs, c.strs.count y = c.strs.count m → strLe m y = true)) ∧
    (c.dtype = Dtype.datetime → c.times ≠ [] →
      ∃ m, (imputeCol c).vals = c.vals.map (fun v => if v = Val.na then Val.time m else v) ∧
        m ∈ c.times ∧ (∀ y ∈ c.times, c.times.count y ≤ c.times.count m) ∧
        (∀ y ∈ c.times, c.times.count y = c.times.count m → intLe m y = true)) := by
  constructor
  · intro hdt hs
    have hnotnum : ¬ c.dtype = Dtype.numeric := by
      rw [hdt]
      intro h
      cases h
    have hnotdt : ¬ c.dtype = Dtype.datetime := by
      rw [hdt]
      intro h
      cases h
    unfold imputeCol
    rw [if_pos hna, if_neg hnotnum, if_neg hnotdt]
    obtain ⟨m, hm⟩ := modeMin_isSome strLe hs
    rw [hm]
    obtain ⟨h1, h2, h3⟩ := modeMin_spec strLe_total strLe_trans c.strs hm
    exact ⟨m, rfl, h1, h2, h3⟩
  · intro hdt hs
    have hnotnum : ¬ c.dtype = Dtype.numeric := by
      rw [hdt]
      intro h
      cases h
    unfold imputeCol
    rw [if_pos hna, if_neg hnotnum, if_pos hdt]
    obtain ⟨m, hm⟩ := modeMin_isSome intLe hs
    rw [hm]
    obtain ⟨h1, h2, h3⟩ := modeMin_spec intLe_total intLe_trans c.times hm
    exact ⟨m, rfl, h1, h2, h3⟩

/-- Object column with a mode tie for the imputation witness. -/
def wModeCol : Col :=
  ⟨"C", Dtype.object, [Val.str "b", Val.str "b", Val.str "a", Val.str "a", Val.na]⟩

/-- Datetime column with a mode tie for the imputation witness. -/
def wModeTimeCol : Col :=
  ⟨"T", Dtype.datetime, [Val.time 5, Val.time 3, Val.time 5, Val.time 3, Val.na]⟩

theorem impute_mode_fill_witness :
    (0 < wModeCol.naCount ∧
     ∃ m, (imputeCol wModeCol).vals =
         wModeCol.vals.map (fun v => if v = Val.na then Val.str m else v) ∧
       m ∈ wModeCol.strs ∧
       (∀ y ∈ wModeCol.strs, wModeCol.strs.count y ≤ wModeCol.strs.count m) ∧
       (∀ y ∈ wModeCol.strs, wModeCol.strs.count y = wModeCol.strs.count m →
         strLe m y = true)) ∧
    (0 < wModeTimeCol.naCount ∧
     ∃ m, (imputeCol wModeTimeCol).vals =
         wModeTimeCol.vals.map (fun v => if v = Val.na then Val.time m else v) ∧
       m ∈ wModeTimeCol.times ∧
       (∀ y ∈ wModeTimeCol.times, wModeTimeCol.times.count y ≤ wModeTimeCol.times.count m) ∧
       (∀ y ∈ wModeTimeCol.times, wModeTimeCol.times.count y = wModeTimeCol.times.count m →
         intLe m y = true)) :=
  ⟨⟨by decide, (impute_mode_fill wModeCol (by decide)).1 (by decide) (by decide)⟩,
   ⟨by decide, (impute_mode_fill wModeTimeCol (by decide)).2 (by decide) (by decide)⟩⟩

theorem pickMaxBy_none_iff {α : Type} (l : List (α × ℚ)) :
    pickMaxBy (fun a b : ℚ => decide (a < b)) l = none ↔ l = [] := by
  constructor
  · intro h
    cases l with
    | nil => rfl
    | cons e es =>
      rw [pickMaxBy] at h
      cases hm : pickMaxBy (fun a b : ℚ => decide (a < b)) es <;> rw [hm] at h <;> cases h
  · intro h
    subst h
    rfl

theorem pickMaxBy_first_max {α : Type} (l : List (α × ℚ)) {m : α × ℚ}
    (h : pickMaxBy (fun a b : ℚ => decide (a < b)) l = some m) :
    ∃ l1 l2, l = l1 ++ m :: l2 ∧ (∀ e ∈ l1, e.2 < m.2) ∧ (∀ e ∈ l2, e.2 ≤ m.2) := by
  induction l generalizing m with
  | nil => cases h
  | cons e es ih =>
    rw [pickMaxBy] at h
    cases hm : pickMaxBy (fun a b : ℚ => decide (a < b)) es with
    | none =>
      rw [hm] at h
      injection h with h
      subst h
      have hes : es = [] := (pickMaxBy_none_iff es).mp hm
      subst hes
      exact ⟨[], [], rfl, by simp, by simp⟩
    | some m0 =>
      rw [hm] at h
      injection h with h
      by_cases hlt : e.2 < m0.2
      · rw [if_pos (decide_eq_true hlt)] at h
        subst h
        obtain ⟨l1, l2, heq, hl1, hl2⟩ := ih hm
        refine ⟨e :: l1, l2, by rw [heq]; rfl, ?_, hl2⟩
        intro x hx
        rcases List.mem_cons.mp hx with rfl | hx2
        · exact hlt
        · exact hl1 x hx2
      · rw [if_neg (by simpa using hlt)] at h
        subst h
        obtain ⟨l1, l2, heq, hl1, hl2⟩ := ih hm
        refine ⟨[], es, rfl, by simp, ?_⟩
        intro x hx
        rw [heq] at hx
        have hm0e : m0.2 ≤ e.2 := le_of_not_lt hlt
        rcases List.mem_append.mp hx with hx1 | hx2
        · exact le_trans (le_of_lt (hl1 x hx1)) hm0e
        · rcases List.mem_cons.mp hx2 with rfl | hx3
          · exact hm0e
          · exact le_trans (hl2 x hx3) hm0e

theorem corrFiltered_lt_one {numeric : List Col} {e : (String × String) × ℚ}
    (h : e ∈ corrFiltered numeric) : e.2 < 1 := by
  unfold corrFiltered at h
  rw [List.mem_filterMap] at h
  obtain ⟨p, hp, he⟩ := h
  cases hc : corrSq p.1 p.2 with
  | none =>
    rw [hc] at he
    cases he
  | some v =>
    rw [hc] at he
    have he2 : (if v < 1 then some ((p.1.name, p.2.name), v) else none) = some e := he
    split_ifs at he2 with hv
    injection he2 with he2
    subst he2
    exact hv

theorem strongestPair_some {numeric : List Col} {p : String × String}
    (h : strongestPair numeric = some p) :
    1 < numeric.length ∧ ∃ v l1 l2,
      corrFiltered numeric = l1 ++ ((p.1, p.2), v) :: l2 ∧ v < 1 ∧
      (∀ e ∈ l1, e.2 < v) ∧ (∀ e ∈ l2, e.2 ≤ v) := by
  unfold strongestPair at h
  by_cases hlen : 1 < numeric.length
  · rw [if_pos hlen] at h
    cases hpm : pickMaxBy (fun a b : ℚ => decide (a < b)) (corrFiltered numeric) with
    | none =>
      rw [hpm] at h
      cases h
    | some m =>
      rw [hpm] at h
      injection h with h
      subst h
      obtain ⟨l1, l2, heq, h1, h2⟩ := pickMaxBy_first_max _ hpm
      have hmem : m ∈ corrFiltered numeric := by
        rw [heq]
        simp
      refine ⟨hlen, m.2, l1, l2, heq, corrFiltered_lt_one hmem, h1, h2⟩
  · rw [if_neg hlen] at h
    cases h

theorem rule_heatmap_kind {numeric : List Col} {s : VSpec} (h : s ∈ rule_heatmap numeric) :
    s.kind = ChartKind.heatmap := by
  unfold rule_heatmap at h
  split_ifs at h
  · rw [List.mem_singleton] at h
    subst h
    rfl
  · cases h

theorem rule_box_kind {numeric : List Col} {s : VSpec} (h : s ∈ rule_box numeric) :
    s.kind = ChartKind.box := by
  unfold rule_box at h
  split_ifs at h
  · rw [List.mem_singleton] at h
    subst h
    rfl
  · cases h

theorem rule_violin_kind {numeric : List Col} {s : VSpec} (h : s ∈ rule_violin numeric) :
    s.kind = ChartKind.violin := by
  unfold rule_violin at h
  split_ifs at h
  · rw [List.mem_singleton] at h
    subst h
    rfl
  · cases h

theorem rule_line_kind {numeric : List Col} {s : VSpec} (h : s ∈ rule_line numeric) :
    s.kind = ChartKind.line := by
  unfold rule_line at h
  split_ifs at h
  · rw [List.mem_singleton] at h
    subst h
    rfl
  · cases h

theorem rule_bar_kind {t : Table} {cat : List Col} {s : VSpec} (h : s ∈ rule_bar t cat) :
    s.kind = ChartKind.bar := by
  unfold rule_bar at h
  by_cases hcond : ¬ (t.nRows = 0 ∨ cat.length = 0)
  · rw [if_pos hcond] at h
    cases hp : pickMaxBy (fun a b : ℕ => decide (a < b))
        ((cat.map (fun c => (c.name, c.nunique))).filter
          (fun e => decide (1 < e.2) && decide (e.2 ≤ 20))) with
    | none =>
      rw [hp] at h
      cases h
    | some m =>
      rw [hp] at h
      rw [List.mem_singleton] at h
      subst h
      rfl
  · rw [if_neg hcond] at h
    cases h

theorem rule_pie_kind {t : Table} {cat : List Col} {s : VSpec} (h : s ∈ rule_pie t cat) :
    s.kind = ChartKind.pie := by
  unfold rule_pie at h
  by_cases hcond : ¬ (t.nRows = 0 ∨ cat.length = 0)
  · rw [if_pos hcond] at h
    cases hp : pickMinBy (fun a b : ℕ => decide (a < b))
        ((cat.map (fun c => (c.name, c.nunique))).filter
          (fun e => decide (1 < e.2) && decide (e.2 ≤ 5))) with
    | none =>
      rw [hp] at h
      cases h
    | some m =>
      rw [hp] at h
      rw [List.mem_singleton] at h
      subst h
      rfl
  · rw [if_neg hcond] at h
    cases h

theorem rule_contour_kind {numeric : List Col} {s : VSpec} (h : s ∈ rule_contour numeric) :
    s.kind = ChartKind.contour := by
  unfold rule_contour at h
  cases hp : strongestPair numeric with
  | none =>
    rw [hp] at h
    cases h
  | some p =>
    rw [hp] at h
    rw [List.mem_singleton] at h
    subst h
    rfl

theorem rule_histogram_kind {t : Table} {numeric : List Col} {s2 : List VSpec} {s : VSpec}
    (hh : rule_histogram t numeric = Except.ok s2) (hs : s ∈ s2) :
    s.kind = ChartKind.histogram := by
  unfold rule_histogram at hh
  by_cases hcond : ¬ (t.nRows = 0 ∨ numeric.length = 0)
  · rw [if_pos hcond] at hh
    cases hv : varIdxmax numeric with
    | ok cname =>
      rw [hv] at hh
      injection hh with hh
      subst hh
      rw [List.mem_singleton] at hs
      subst hs
      rfl
    | error e =>
      rw [hv] at hh
      cases hh
  · rw [if_neg hcond] at hh
    injection hh with hh
    subst hh
    cases hs

theorem rule_scatter_cases {numeric : List Col} {s : VSpec} (h : s ∈ rule_scatter numeric) :
    ∃ p, strongestPair numeric = some p ∧ s = ⟨ChartKind.scatter, [p.1, p.2]⟩ := by
  unfold rule_scatter at h
  cases hp : strongestPair numeric with
  | none =>
    rw [hp] at h
    cases h
  | some p =>
    rw [hp] at h
    rw [List.mem_singleton] at h
    exact ⟨p, rfl, h⟩

theorem strongestPair_isSome {numeric : List Col} (hlen : 1 < numeric.length)
    (hne : corrFiltered numeric ≠ []) : ∃ p, strongestPair numeric = some p := by
  unfold strongestPair
  rw [if_pos hlen]
  cases hpm : pickMaxBy (fun a b : ℚ => decide (a < b)) (corrFiltered numeric) with
  | none => exact absurd ((pickMaxBy_none_iff _).mp hpm) hne
  | some m => exact ⟨m.1, rfl⟩

/-- C5 (amended): whenever the Visualization Selector returns, its scatter
    spec exists exactly when there are at least two numeric columns AND the
    filtered unstacked correlation series is non-empty, and the selected
    pair is the first pair (in DataFrame-unstack order: outer loop over
    column labels, inner over row labels) attaining the maximum absolute
    correlation among the entries with |r| strictly below 1.  The filter
    `corr_unstacked < 1` excludes not only the self-correlation diagonal but
    every perfectly correlated pair of distinct columns, which the
    counterexample shows are NOT eligible for selection, contrary to the
    claim as stated. -/
theorem strongest_pair_selection (t : Table) (l : List VSpec)
    (hok : generate_visuals t = Except.ok l) :
    ((∃ s ∈ l, s.kind = ChartKind.scatter) ↔
      (1 < (numericCols t).length ∧ corrFiltered (numericCols t) ≠ [])) ∧
    (∀ s ∈ l, s.kind = ChartKind.scatter →
      ∃ n1 n2 v l1 l2, s.cols = [n1, n2] ∧
        corrFiltered (numericCols t) = l1 ++ ((n1, n2), v) :: l2 ∧ v < 1 ∧
        (∀ e ∈ l1, e.2 < v) ∧ (∀ e ∈ l2, e.2 ≤ v)) := by
  unfold generate_visuals at hok
  cases hh : rule_histogram t (numericCols t) with
  | error err =>
    rw [hh] at hok
    cases hok
  | ok s2 =>
    rw [hh] at hok
    injection hok with hok
    subst hok
    have hscatter : ∀ s, s ∈ rule_heatmap (numericCols t) ++ s2 ++
        rule_scatter (numericCols t) ++ rule_box (numericCols t) ++ rule_bar t (catCols t) ++
        rule_pie t (catCols t) ++ rule_violin (numericCols t) ++ rule_line (numericCols t) ++
        rule_contour (numericCols t) → s.kind = ChartKind.scatter →
        s ∈ rule_scatter (numericCols t) := by
      intro s hs hk
      simp only [List.mem_append] at hs
      rcases hs with ((((((((h1 | h2) | h3) | h4) | h5) | h6) | h7) | h8) | h9)
      · rw [rule_heatmap_kind h1] at hk
        cases hk
      · rw [rule_histogram_kind hh h2] at hk
        cases hk
      · exact h3
      · rw [rule_box_kind h4] at hk
        cases hk
      · rw [rule_bar_kind h5] at hk
        cases hk
      · rw [rule_pie_kind h6] at hk
        cases hk
      · rw [rule_violin_kind h7] at hk
        cases hk
      · rw [rule_line_kind h8] at hk
        cases hk
      · rw [rule_contour_kind h9] at hk
        cases hk
    constructor
    · constructor
      · rintro ⟨s, hs, hk⟩
        obtain ⟨p, hp, hsp⟩ := rule_scatter_cases (hscatter s hs hk)
        obtain ⟨hlen, v, l1, l2, heq, hv, hb1, hb2⟩ := strongestPair_some hp
        refine ⟨hlen, ?_⟩
        rw [heq]
        simp
      · rintro ⟨hlen, hne⟩
        obtain ⟨p, hp⟩ := strongestPair_isSome hlen hne
        refine ⟨⟨ChartKind.scatter, [p.1, p.2]⟩, ?_, rfl⟩
        simp only [List.mem_append]
        left
        left
        left
        left
        left
        left
        right
        unfold rule_scatter
        rw [hp]
        simp
    · intro s hs hk
      obtain ⟨p, hp, hsp⟩ := rule_scatter_cases (hscatter s hs hk)
      obtain ⟨hlen, v, l1, l2, heq, hv, hb1, hb2⟩ := strongestPair_some hp
      subst hsp
      exact ⟨p.1, p.2, v, l1, l2, rfl, heq, hv, hb1, hb2⟩

/-- Two imperfectly correlated numeric columns for the selection witness. -/
def wScatterTable : Table :=
  ⟨[⟨"A", Dtype.numeric, [Val.num 1, Val.num 2, Val.num 3]⟩,
    ⟨"B", Dtype.numeric, [Val.num 1, Val.num 2, Val.num 4]⟩]⟩

/-- The selector output on `wScatterTable`. -/
def wScatterSpecs : List VSpec :=
  [⟨ChartKind.heatmap, ["A", "B"]⟩, ⟨ChartKind.histogram, ["B"]⟩,
   ⟨ChartKind.scatter, ["A", "B"]⟩, ⟨ChartKind.box, ["A", "B"]⟩,
   ⟨ChartKind.violin, ["B"]⟩, ⟨ChartKind.line, ["A"]⟩,
   ⟨ChartKind.contour, ["A", "B"]⟩]

theorem strongest_pair_selection_witness :
    ((∃ s ∈ wScatterSpecs, s.kind = ChartKind.scatter) ↔
      (1 < (numericCols wScatterTable).length ∧
        corrFiltered (numericCols wScatterTable) ≠ [])) ∧
    (∀ s ∈ wScatterSpecs, s.kind = ChartKind.scatter →
      ∃ n1 n2 v l1 l2, s.cols = [n1, n2] ∧
        corrFiltered (numericCols wScatterTable) = l1 ++ ((n1, n2), v) :: l2 ∧ v < 1 ∧
        (∀ e ∈ l1, e.2 < v) ∧ (∀ e ∈ l2, e.2 ≤ v)) :=
  strongest_pair_selection wScatterTable wScatterSpecs (by decide)
